import Mathlib

/-!
# termfields: updateable form fields on a character-grid terminal

A shallow embedding of `termfields.go` (package `termfields`).

* Go's `int` is the 64-bit signed integer: a coordinate is an `Int` between `intMin` and
  `intMax`, and every `+`, `-`, `++`, `--` of the source is followed by `wrap`, the
  reduction modulo 2^64 into that range.  `boxStyle`, `moveDir` (both `uint16`) and
  `rune` are natural numbers.
* A Go `string` is its sequence of bytes (`GoString`); `for i, c := range s` is
  `rangeString`, which yields the byte index and the decoded rune of every UTF-8
  sequence of the string.
* The terminal driver (`termbox-go`, an external collaborator) is not part of the
  package.  Every operation returns the list of driver calls it issues, in order
  (`tb.Call`), and `tb.IsInit` is a boolean argument.  The effect of the calls on the
  driver's cell buffer is `tb.Grid.run`; the buffer has a width and a height and the
  driver ignores a write outside of it.
-/

namespace termfields

/-! ## The terminal driver interface -/

namespace tb

/-- The driver's `ColorDefault` attribute. -/
def ColorDefault : Nat := 0

/-- One call issued to the driver: `tb.SetCell(x, y, ch, fg, bg)` or `tb.Flush()`. -/
inductive Call where
  | SetCell (x y : Int) (ch : Nat) (fg bg : Nat)
  | Flush
  deriving DecidableEq

/-- One cell of the driver's buffer: a character with its colour pair. -/
structure Cell where
  Ch : Nat
  Fg : Nat
  Bg : Nat
  deriving DecidableEq

/-- Modelled from the spec: the terminal driver's cell grid (the driver is an external
collaborator, its code is not part of the package): a buffer of `width` columns and
`height` rows.  The cells of the grid are the `cells a b` with `0 <= a < width` and
`0 <= b < height`; no call changes `cells` at another position. -/
structure Grid where
  width : Int
  height : Int
  cells : Int → Int → Cell

instance : CoeFun Grid (fun _ => Int → Int → Cell) := ⟨Grid.cells⟩

/-- The position `(x, y)` lies inside the grid. -/
def Grid.inside (g : Grid) (x y : Int) : Prop :=
  0 ≤ x ∧ x < g.width ∧ 0 ≤ y ∧ y < g.height

instance (g : Grid) (x y : Int) : Decidable (g.inside x y) := by
  unfold Grid.inside; infer_instance

/-- Modelled from the spec: `SetCell` "writes one character cell", and the driver
"silently ignores or clips out-of-bounds writes". -/
def Grid.SetCell (g : Grid) (x y : Int) (c : Cell) : Grid :=
  if g.inside x y then
    { g with cells := fun a b => if a = x ∧ b = y then c else g.cells a b }
  else g

/-- Modelled from the spec: the effect of one driver call on the cell grid; `Flush`
commits the pending cells to the display and changes no cell. -/
def Grid.step (g : Grid) : Call → Grid
  | Call.SetCell x y ch fg bg => g.SetCell x y ⟨ch, fg, bg⟩
  | Call.Flush => g

/-- The cell grid after a sequence of driver calls, issued in order. -/
def Grid.run (g : Grid) (cs : List Call) : Grid :=
  cs.foldl Grid.step g

/-- The `SetCell` calls among a sequence of driver calls. -/
def isSetCell : Call → Bool
  | Call.SetCell _ _ _ _ _ => true
  | Call.Flush => false

/-- The position a driver call addresses: the `(x, y)` of a `SetCell`. -/
def Call.pos : Call → Option (Int × Int)
  | Call.SetCell x y _ _ _ => some (x, y)
  | Call.Flush => none

/-- The cell content a driver call carries for the position `(a, b)`, if it addresses
that position. -/
def Call.writes (c : Call) (a b : Int) : Option Cell :=
  match c with
  | Call.SetCell x y ch fg bg => if a = x ∧ b = y then some ⟨ch, fg, bg⟩ else none
  | Call.Flush => none

/-- The same driver call with the character replaced by `ch`. -/
def Call.withRune (ch : Nat) : Call → Call
  | Call.SetCell x y _ fg bg => Call.SetCell x y ch fg bg
  | Call.Flush => Call.Flush

/-- The cell content that the last call for the position `(a, b)` in a sequence of
driver calls carries, if a call addresses that position. -/
def lastWrite : List Call → Int → Int → Option Cell
  | [], _, _ => none
  | c :: cs, a, b =>
    match lastWrite cs a b with
    | some v => some v
    | none => c.writes a b

end tb

/-! ## Go's `int` -/

/-- The smallest value of Go's 64-bit `int`. -/
def intMin : Int := -9223372036854775808

/-- The largest value of Go's 64-bit `int`. -/
def intMax : Int := 9223372036854775807

/-- The result of an `int` operation whose exact value is `v`: the value of `int` that
is congruent to `v` modulo 2^64 (two's complement wrap-around). -/
def wrap (v : Int) : Int :=
  (v + 9223372036854775808) % 18446744073709551616 - 9223372036854775808

/-! ## Go strings and `range` -/

/-- A Go `rune`. -/
abbrev rune := Nat

/-- A Go `string`: a sequence of bytes. -/
abbrev GoString := List Nat

/-- The rune `utf8.RuneError`, produced for an invalid UTF-8 sequence. -/
def RuneError : rune := 0xFFFD

/-- UTF-8 decoding of the first rune of a byte sequence, as the `range` clause does it:
the rune and the number of bytes it takes.  An invalid or incomplete sequence
decodes to `RuneError` of width one byte. -/
def decodeRune : List Nat → rune × Nat
  | [] => (RuneError, 0)
  | b0 :: rest =>
    if b0 < 0x80 then (b0, 1)
    else if 0xC2 ≤ b0 ∧ b0 ≤ 0xDF then
      match rest with
      | b1 :: _ =>
        if 0x80 ≤ b1 ∧ b1 ≤ 0xBF then ((b0 % 32) * 64 + b1 % 64, 2) else (RuneError, 1)
      | [] => (RuneError, 1)
    else if 0xE0 ≤ b0 ∧ b0 ≤ 0xEF then
      match rest with
      | b1 :: b2 :: _ =>
        if (if b0 = 0xE0 then 0xA0 else 0x80) ≤ b1 ∧ b1 ≤ (if b0 = 0xED then 0x9F else 0xBF)
            ∧ 0x80 ≤ b2 ∧ b2 ≤ 0xBF then
          ((b0 % 16) * 4096 + (b1 % 64) * 64 + b2 % 64, 3)
        else (RuneError, 1)
      | _ => (RuneError, 1)
    else if 0xF0 ≤ b0 ∧ b0 ≤ 0xF4 then
      match rest with
      | b1 :: b2 :: b3 :: _ =>
        if (if b0 = 0xF0 then 0x90 else 0x80) ≤ b1 ∧ b1 ≤ (if b0 = 0xF4 then 0x8F else 0xBF)
            ∧ 0x80 ≤ b2 ∧ b2 ≤ 0xBF ∧ 0x80 ≤ b3 ∧ b3 ≤ 0xBF then
          ((b0 % 8) * 262144 + (b1 % 64) * 4096 + (b2 % 64) * 64 + b3 % 64, 4)
        else (RuneError, 1)
      | _ => (RuneError, 1)
    else (RuneError, 1)

/-- The iterations of `for i, c := range s` over the bytes from index `i` on: the pair
of the byte index at which a rune starts and the rune.  `skip` counts the bytes that
still belong to the rune decoded last. -/
def rangeFrom : Nat → Nat → List Nat → List (Nat × rune)
  | _, _, [] => []
  | i, skip + 1, _ :: rest => rangeFrom (i + 1) skip rest
  | i, 0, b :: rest =>
    (i, (decodeRune (b :: rest)).1) :: rangeFrom (i + 1) ((decodeRune (b :: rest)).2 - 1) rest

/-- The iterations of `for i, c := range s`. -/
def rangeString (s : GoString) : List (Nat × rune) :=
  rangeFrom 0 0 s

/-- The characters (runes) of a string, in order. -/
def runes (s : GoString) : List rune :=
  (rangeString s).map Prod.snd

/-! ## Styles, directions and fields -/

abbrev boxStyle := Nat
abbrev moveDir := Nat

def boxStyleClear : boxStyle := 0
def BoxStyleNone : boxStyle := 1
def BoxStyleASCII : boxStyle := 2
def BoxStyleUnicode : boxStyle := 3

def FieldMoveLeft : moveDir := 0
def FieldMoveRight : moveDir := 1
def FieldMoveUp : moveDir := 2
def FieldMoveDown : moveDir := 3

/-- The map from a border style to its glyphs, as `init` builds it. -/
def boxRunesMap : List (boxStyle × List rune) :=
  [ (boxStyleClear, [32, 32, 32, 32, 32, 32]),
    (BoxStyleNone, [0x0, 0x0, 0x0, 0x0, 0x0, 0x0]),
    (BoxStyleASCII, [43, 43, 43, 43, 45, 124]),
    (BoxStyleUnicode, [0x250c, 0x2510, 0x2514, 0x2518, 0x2500, 0x2502]) ]

structure field where
  x : Int
  y : Int
  len : Int
  border : boxStyle
  text : GoString
  deriving DecidableEq

/-- The identifier of a form field on the screen. -/
structure Field where
  field : field
  deriving DecidableEq

/-- What a method on a field leaves behind: the field, the returned `error` (`none` is
`nil`, otherwise the message) and the driver calls issued, in order. -/
structure Res where
  f : field
  err : Option String
  calls : List tb.Call
  deriving DecidableEq

/-- What `NewField` returns (`*Field`, with `none` for `nil`, and `error`) together with
the driver calls issued. -/
structure NewRes where
  fld : Option Field
  err : Option String
  calls : List tb.Call
  deriving DecidableEq

/-- The error `fmt.Errorf("Term not Initialized")`. -/
def errNotInitialized : String := "Term not Initialized"

/-- The error `fmt.Errorf("Unknown Box Style")`. -/
def errUnknownStyle : String := "Unknown Box Style"

/-! ## The operations -/

/-- A `SetCell` call with the default colour pair. -/
def setCell (x y : Int) (ch : rune) : tb.Call :=
  tb.Call.SetCell x y ch tb.ColorDefault tb.ColorDefault

/-- The loop `for i := 0; i < f.len+1; i++` of `DrawBox`, with `n` iterations left
at counter value `i`.  The counter stays below the bound, a value of `int`, so `i++`
does not overflow. -/
def drawTop (f : field) (ch : rune) : Nat → Int → List tb.Call
  | 0, _ => []
  | n + 1, i =>
    setCell (wrap (f.x + i)) (wrap (f.y - 1)) ch
      :: setCell (wrap (f.x + i)) (wrap (f.y + 1)) ch :: drawTop f ch n (i + 1)

/-- The method `DrawBox`.  `boxRunesMap[boxType][k]` is `r.getD k 0` for the glyph list
`r` found in the registry, which has six entries for every registered style.  The loop
runs `f.len+1` times when that bound (computed in `int`) is positive, else not at all. -/
def field.DrawBox (f : field) (IsInit : Bool) (boxType : boxStyle) : Res :=
  if !IsInit then ⟨f, some errNotInitialized, []⟩
  else
    match boxRunesMap.lookup boxType with
    | none => ⟨f, some errUnknownStyle, []⟩
    | some r =>
      ⟨{ f with border := boxType }, none,
        [ setCell (wrap (f.x - 1)) (wrap (f.y - 1)) (r.getD 0 0),
          setCell (wrap (wrap (f.x + f.len) + 1)) (wrap (f.y - 1)) (r.getD 1 0),
          setCell (wrap (f.x - 1)) (wrap (f.y + 1)) (r.getD 2 0),
          setCell (wrap (wrap (f.x + f.len) + 1)) (wrap (f.y + 1)) (r.getD 3 0),
          setCell (wrap (f.x - 1)) f.y (r.getD 5 0),
          setCell (wrap (wrap (f.x + f.len) + 1)) f.y (r.getD 5 0) ]
        ++ drawTop f (r.getD 4 0) (wrap (f.len + 1)).toNat 0
        ++ [tb.Call.Flush]⟩

/-- The method `Update`: one `SetCell` per iteration of `range s`, at the column
`f.x+i` (computed in `int`) for the index `i` the iteration yields. -/
def field.Update (f : field) (IsInit : Bool) (s : GoString) : Res :=
  if !IsInit then ⟨f, some errNotInitialized, []⟩
  else
    ⟨{ f with text := s }, none,
      (rangeString s).map (fun ic => setCell (wrap (f.x + (ic.1 : Int))) f.y ic.2)
        ++ [tb.Call.Flush]⟩

/-- The method `Move`; it returns no error. The result holds the field and the driver
calls of the three inner operations. -/
def field.Move (f : field) (IsInit : Bool) (dir : moveDir) : field × List tb.Call :=
  let border := f.border
  let r1 := f.DrawBox IsInit boxStyleClear
  let f1 := r1.f
  let f2 : field :=
    if dir = FieldMoveLeft then { f1 with x := wrap (f1.x - 1) }
    else if dir = FieldMoveRight then { f1 with x := wrap (f1.x + 1) }
    else if dir = FieldMoveUp then { f1 with y := wrap (f1.y - 1) }
    else if dir = FieldMoveDown then { f1 with y := wrap (f1.y + 1) }
    else f1
  let r2 := f2.DrawBox IsInit border
  let r3 := r2.f.Update IsInit r2.f.text
  (r3.f, r1.calls ++ r2.calls ++ r3.calls)

/-- The constructor `NewField`.  The literal `field{x: x, y: y, len: len}` leaves
`border` and `text` at their zero values, `0` and the empty string. -/
def NewField (IsInit : Bool) (y x len : Int) (text : GoString) : NewRes :=
  let f : field := { x := x, y := y, len := len, border := 0, text := [] }
  let r := f.Update IsInit text
  match r.err with
  | some e => ⟨none, some e, r.calls⟩
  | none => ⟨some ⟨r.f⟩, none, r.calls⟩

/-- The border positions of a field: the two columns `x-1` and `x+len+1` on the rows
`y-1`, `y` and `y+1`, and the columns `x` to `x+len` on the rows `y-1` and `y+1`.  These
are the positions `DrawBox` addresses when none of its `int` operations overflows. -/
def field.onBorder (f : field) (a b : Int) : Prop :=
  ((a = f.x - 1 ∨ a = f.x + f.len + 1) ∧ (b = f.y - 1 ∨ b = f.y ∨ b = f.y + 1)) ∨
  ((f.x ≤ a ∧ a ≤ f.x + f.len) ∧ (b = f.y - 1 ∨ b = f.y + 1))

instance (f : field) (a b : Int) : Decidable (f.onBorder a b) := by
  unfold field.onBorder; infer_instance

/-- A blank screen of 80 columns and 24 rows: a space in every cell. -/
def blank : tb.Grid := ⟨80, 24, fun _ _ => ⟨32, tb.ColorDefault, tb.ColorDefault⟩⟩

/-- The cell holding a character with the default colour pair. -/
def cellOf (ch : rune) : tb.Cell := ⟨ch, tb.ColorDefault, tb.ColorDefault⟩

/-- The fields a program can hold: the ones returned by `NewField` and whatever `DrawBox`,
`Update` and `Move` make of them, with any argument and with the driver initialized or
not at each call. -/
inductive Reachable : field → Prop
  | new (IsInit : Bool) (y x len : Int) (text : GoString) (F : Field) :
      (NewField IsInit y x len text).fld = some F → Reachable F.field
  | drawBox (f : field) (IsInit : Bool) (boxType : boxStyle) :
      Reachable f → Reachable (f.DrawBox IsInit boxType).f
  | update (f : field) (IsInit : Bool) (s : GoString) :
      Reachable f → Reachable (f.Update IsInit s).f
  | move (f : field) (IsInit : Bool) (dir : moveDir) :
      Reachable f → Reachable (f.Move IsInit dir).1

/-- A text of ASCII characters only: every byte is below 0x80, so that every character
takes one byte. -/
def isASCII (s : GoString) : Prop := ∀ b ∈ s, b < 0x80

instance (s : GoString) : Decidable (isASCII s) := by
  unfold isASCII; infer_instance

/-- The grid shows the text `s` from the cell `(x, y)` on: the cell `(x+i, y)` holds the
byte of index `i`, for every index of the text. -/
def showsText (g : tb.Grid) (x y : Int) (s : GoString) : Prop :=
  ∀ (i : Nat) (c : Nat), s[i]? = some c → g (x + (i : Int)) y = cellOf c

/-- The grid a fresh field produces on a blank screen: `NewField(y, x, len, text)` with
the driver initialized, followed by `DrawBox(style)` on the new field (which issues no
call when `style` is not registered). -/
def freshGrid (y x len : Int) (text : GoString) (style : boxStyle) : tb.Grid :=
  match (NewField true y x len text).fld with
  | some F => blank.run ((NewField true y x len text).calls ++ (F.field.DrawBox true style).calls)
  | none => blank

/-- Whether a driver call writes a space with the default colour pair, or is a flush. -/
def writesSpace : tb.Call → Bool
  | tb.Call.SetCell _ _ ch fg bg => ch == 32 && fg == tb.ColorDefault && bg == tb.ColorDefault
  | tb.Call.Flush => true

/-- None of the `int` operations of `DrawBox` on the field overflows, for a length that is
not negative: `x-1`, `x+len+1`, `len+1`, `y-1` and `y+1` are values of `int`. -/
def field.noOverflow (f : field) : Prop :=
  intMin < f.x ∧ f.x + f.len + 1 ≤ intMax ∧ f.len < intMax ∧ intMin < f.y ∧ f.y < intMax

instance (f : field) : Decidable f.noOverflow := by
  unfold field.noOverflow; infer_instance

/-! ## Driver calls and the cell grid -/

theorem run_nil (g : tb.Grid) : g.run [] = g := rfl

theorem run_cons (g : tb.Grid) (c : tb.Call) (cs : List tb.Call) :
    g.run (c :: cs) = (g.step c).run cs := rfl

theorem run_append (g : tb.Grid) (cs ds : List tb.Call) :
    g.run (cs ++ ds) = (g.run cs).run ds := by
  simp [tb.Grid.run, List.foldl_append]

theorem step_flush (g : tb.Grid) : g.step tb.Call.Flush = g := rfl

/-- Two grids with the same size and the same cell contents are equal. -/
theorem grid_ext (g h : tb.Grid) (hw : g.width = h.width) (hh : g.height = h.height)
    (hc : ∀ a b : Int, g.cells a b = h.cells a b) : g = h := by
  cases g; cases h
  simp only [tb.Grid.mk.injEq] at *
  exact ⟨hw, hh, funext fun a => funext fun b => hc a b⟩

theorem step_width (g : tb.Grid) (c : tb.Call) : (g.step c).width = g.width := by
  cases c with
  | Flush => rfl
  | SetCell x y ch fg bg =>
    simp only [tb.Grid.step, tb.Grid.SetCell]
    split_ifs <;> rfl

theorem step_height (g : tb.Grid) (c : tb.Call) : (g.step c).height = g.height := by
  cases c with
  | Flush => rfl
  | SetCell x y ch fg bg =>
    simp only [tb.Grid.step, tb.Grid.SetCell]
    split_ifs <;> rfl

theorem step_inside (g : tb.Grid) (c : tb.Call) (a b : Int) :
    (g.step c).inside a b ↔ g.inside a b := by
  simp only [tb.Grid.inside, step_width, step_height]

/-- One driver call changes the cell it addresses, when that cell is inside the grid,
and no other. -/
theorem step_cells (g : tb.Grid) (c : tb.Call) (a b : Int) :
    (g.step c).cells a b
      = if g.inside a b then (c.writes a b).getD (g.cells a b) else g.cells a b := by
  cases c with
  | Flush => simp [tb.Grid.step, tb.Call.writes]
  | SetCell x y ch fg bg =>
    simp only [tb.Grid.step, tb.Grid.SetCell, tb.Call.writes]
    by_cases hin : g.inside x y
    · rw [if_pos hin]
      by_cases hab : a = x ∧ b = y
      · obtain ⟨rfl, rfl⟩ := hab
        simp [hin]
      · simp [hab]
    · rw [if_neg hin]
      by_cases hab : a = x ∧ b = y
      · obtain ⟨rfl, rfl⟩ := hab
        simp [hin]
      · simp [hab]

theorem run_width (cs : List tb.Call) : ∀ g : tb.Grid, (g.run cs).width = g.width := by
  induction cs with
  | nil => intro g; rfl
  | cons c cs ih => intro g; rw [run_cons, ih, step_width]

theorem run_height (cs : List tb.Call) : ∀ g : tb.Grid, (g.run cs).height = g.height := by
  induction cs with
  | nil => intro g; rfl
  | cons c cs ih => intro g; rw [run_cons, ih, step_height]

theorem run_inside (g : tb.Grid) (cs : List tb.Call) (a b : Int) :
    (g.run cs).inside a b ↔ g.inside a b := by
  simp only [tb.Grid.inside, run_width, run_height]

/-- The cell grid after a sequence of driver calls: a cell inside the grid holds what the
last call for its position carries; every other cell is as it was. -/
theorem run_cells (cs : List tb.Call) :
    ∀ (g : tb.Grid) (a b : Int),
      (g.run cs).cells a b
        = if g.inside a b then (tb.lastWrite cs a b).getD (g.cells a b) else g.cells a b := by
  induction cs with
  | nil => intro g a b; simp [run_nil, tb.lastWrite]
  | cons c cs ih =>
    intro g a b
    rw [run_cons, ih, step_cells, tb.lastWrite]
    by_cases hin : g.inside a b
    · rw [if_pos ((step_inside g c a b).mpr hin), if_pos hin, if_pos hin]
      cases tb.lastWrite cs a b <;> rfl
    · rw [if_neg (fun h => hin ((step_inside g c a b).mp h)), if_neg hin, if_neg hin]

theorem lastWrite_append (cs ds : List tb.Call) (a b : Int) :
    tb.lastWrite (cs ++ ds) a b
      = match tb.lastWrite ds a b with
        | some v => some v
        | none => tb.lastWrite cs a b := by
  induction cs with
  | nil => simp only [List.nil_append, tb.lastWrite]; cases tb.lastWrite ds a b <;> rfl
  | cons c cs ih =>
    rw [List.cons_append, tb.lastWrite, ih, tb.lastWrite]
    cases tb.lastWrite ds a b <;> rfl

/-- No call of the sequence carries a content for `(a, b)` exactly when none addresses
that position. -/
theorem lastWrite_eq_none_iff (cs : List tb.Call) (a b : Int) :
    tb.lastWrite cs a b = none ↔ ∀ c ∈ cs, c.pos ≠ some (a, b) := by
  induction cs with
  | nil => simp [tb.lastWrite]
  | cons c cs ih =>
    rw [tb.lastWrite, List.forall_mem_cons, ← ih]
    cases h : tb.lastWrite cs a b with
    | some v => simp
    | none =>
      simp only [and_true]
      cases c with
      | Flush => simp [tb.Call.writes, tb.Call.pos]
      | SetCell x y ch fg bg =>
        simp only [tb.Call.writes, tb.Call.pos, ne_eq, Option.some.injEq, Prod.mk.injEq]
        by_cases hab : a = x ∧ b = y
        · obtain ⟨rfl, rfl⟩ := hab
          simp
        · rw [if_neg hab]
          simp only [true_iff]
          intro h2
          exact hab ⟨h2.1.symm, h2.2.symm⟩

/-- The content the last call for a position carries is the content of a call of the
sequence. -/
theorem lastWrite_mem (cs : List tb.Call) (a b : Int) (v : tb.Cell)
    (h : tb.lastWrite cs a b = some v) :
    tb.Call.SetCell a b v.Ch v.Fg v.Bg ∈ cs := by
  induction cs with
  | nil => simp [tb.lastWrite] at h
  | cons c cs ih =>
    rw [tb.lastWrite] at h
    cases h2 : tb.lastWrite cs a b with
    | some w =>
      rw [h2] at h
      simp only [Option.some.injEq] at h
      subst h
      exact List.mem_cons_of_mem c (ih h2)
    | none =>
      rw [h2] at h
      cases c with
      | Flush => simp [tb.Call.writes] at h
      | SetCell x y ch fg bg =>
        simp only [tb.Call.writes] at h
        split_ifs at h with hab
        obtain ⟨rfl, rfl⟩ := hab
        simp only [Option.some.injEq] at h
        subst h
        exact List.mem_cons_self _ _

/-- A sequence of driver calls changes no cell that none of the calls addresses. -/
theorem run_frame (g : tb.Grid) (cs : List tb.Call) (a b : Int)
    (h : ∀ c ∈ cs, c.pos ≠ some (a, b)) : (g.run cs).cells a b = g.cells a b := by
  rw [run_cells, (lastWrite_eq_none_iff cs a b).mpr h]
  split_ifs <;> rfl

/-- A sequence of driver calls changes no cell outside the grid. -/
theorem run_outside (g : tb.Grid) (cs : List tb.Call) (a b : Int) (h : ¬ g.inside a b) :
    (g.run cs).cells a b = g.cells a b := by
  rw [run_cells, if_neg h]

/-! ## Go's `int` -/

theorem wrap_of_int (v : Int) (h1 : intMin ≤ v) (h2 : v ≤ intMax) : wrap v = v := by
  simp only [wrap, intMin, intMax] at *
  omega

theorem wrap_bounds (v : Int) : intMin ≤ wrap v ∧ wrap v ≤ intMax := by
  simp only [wrap, intMin, intMax]
  omega

/-- Two `int` results are equal exactly when the exact values are congruent modulo 2^64. -/
theorem wrap_eq_wrap_iff (v w : Int) :
    wrap v = wrap w ↔ (v - w) % 18446744073709551616 = 0 := by
  simp only [wrap]
  omega

/-! ## The style registry and the guards -/

/-- The styles of the registry are the four constants. -/
theorem lookup_isSome_iff (s : boxStyle) :
    (boxRunesMap.lookup s).isSome = true
      ↔ s = boxStyleClear ∨ s = BoxStyleNone ∨ s = BoxStyleASCII ∨ s = BoxStyleUnicode := by
  rcases s with _ | _ | _ | _ | s <;>
    simp [boxRunesMap, List.lookup, boxStyleClear, BoxStyleNone, BoxStyleASCII, BoxStyleUnicode]

theorem lookup_eq_none_iff (s : boxStyle) :
    boxRunesMap.lookup s = none
      ↔ s ≠ boxStyleClear ∧ s ≠ BoxStyleNone ∧ s ≠ BoxStyleASCII ∧ s ≠ BoxStyleUnicode := by
  rw [← not_iff_not, ← ne_eq, ← Option.isSome_iff_ne_none, lookup_isSome_iff]
  tauto

theorem DrawBox_of_none (f : field) (s : boxStyle) (h : boxRunesMap.lookup s = none) :
    f.DrawBox true s = ⟨f, some errUnknownStyle, []⟩ := by
  simp [field.DrawBox, h]

theorem DrawBox_of_some (f : field) (s : boxStyle) (r : List rune)
    (h : boxRunesMap.lookup s = some r) :
    f.DrawBox true s =
      ⟨{ f with border := s }, none,
        [ setCell (wrap (f.x - 1)) (wrap (f.y - 1)) (r.getD 0 0),
          setCell (wrap (wrap (f.x + f.len) + 1)) (wrap (f.y - 1)) (r.getD 1 0),
          setCell (wrap (f.x - 1)) (wrap (f.y + 1)) (r.getD 2 0),
          setCell (wrap (wrap (f.x + f.len) + 1)) (wrap (f.y + 1)) (r.getD 3 0),
          setCell (wrap (f.x - 1)) f.y (r.getD 5 0),
          setCell (wrap (wrap (f.x + f.len) + 1)) f.y (r.getD 5 0) ]
        ++ drawTop f (r.getD 4 0) (wrap (f.len + 1)).toNat 0
        ++ [tb.Call.Flush]⟩ := by
  simp [field.DrawBox, h]

theorem DrawBox_not_init (f : field) (s : boxStyle) :
    f.DrawBox false s = ⟨f, some errNotInitialized, []⟩ := by
  simp [field.DrawBox]

theorem Update_not_init (f : field) (s : GoString) :
    f.Update false s = ⟨f, some errNotInitialized, []⟩ := by
  simp [field.Update]

/-! ## Field construction -/

/-- What `NewField` returns with the driver initialized. -/
theorem NewField_of_init (y x len : Int) (text : GoString) :
    NewField true y x len text
      = ⟨some ⟨⟨x, y, len, 0, text⟩⟩, none,
          (rangeString text).map (fun ic => setCell (wrap (x + (ic.1 : Int))) y ic.2)
            ++ [tb.Call.Flush]⟩ := by
  simp [NewField, field.Update]

/-- C1 (as amended): for every y, x, length and text, with the driver initialized
`NewField` succeeds (no error) and returns a field whose x, y and length are the
arguments, whose cached text is `text`, and whose border is the zero value of `boxStyle`,
which is the Clear style `boxStyleClear`. -/
theorem NewField_initialized (y x len : Int) (text : GoString) :
    (NewField true y x len text).fld = some ⟨⟨x, y, len, boxStyleClear, text⟩⟩ ∧
    (NewField true y x len text).err = none := by
  simp [NewField, field.Update, boxStyleClear]

/-- C1 (counterexample): the field created at y=5, x=10 with length 4 and text "hi" has
the border `boxStyleClear`, so no field with the border `BoxStyleNone` is returned. -/
theorem NewField_border_not_None :
    (NewField true 5 10 4 [104, 105]).fld = some ⟨⟨10, 5, 4, boxStyleClear, [104, 105]⟩⟩ ∧
    ¬ ∃ F : Field, (NewField true 5 10 4 [104, 105]).fld = some F
        ∧ F.field.border = BoxStyleNone := by
  decide

/-! ## Text update -/

/-- C2 (the code at the failing input): the text "éa" (bytes C3 A9 61) has the two
characters U+00E9 and 'a'; `Update` on the field at (0, 0) writes 'a', the character of
index 1, to column 2, the byte index at which it starts, and issues no call for
column 1. -/
theorem Update_multibyte_column :
    runes [0xC3, 0xA9, 0x61] = [0xE9, 0x61] ∧
    ((⟨0, 0, 2, boxStyleClear, []⟩ : field).Update true [0xC3, 0xA9, 0x61]).calls
      = [setCell 0 0 0xE9, setCell 2 0 0x61, tb.Call.Flush] ∧
    (blank.run ((⟨0, 0, 2, boxStyleClear, []⟩ : field).Update true [0xC3, 0xA9, 0x61]).calls) 1 0
      = blank 1 0 := by
  decide

/-! ## Uninitialized driver and unknown styles -/

/-- C3: with the driver not initialized, `NewField`, `DrawBox` (any style) and `Update`
(any text) return the error "Term not Initialized" and issue no driver call at all (no
`SetCell`, no `Flush`); `DrawBox` and `Update` leave the field as it was and `NewField`
returns no field. -/
theorem not_initialized (y x len : Int) (text : GoString) (f : field) (style : boxStyle) :
    NewField false y x len text = ⟨none, some errNotInitialized, []⟩ ∧
    f.DrawBox false style = ⟨f, some errNotInitialized, []⟩ ∧
    f.Update false text = ⟨f, some errNotInitialized, []⟩ := by
  refine ⟨?_, DrawBox_not_init f style, Update_not_init f text⟩
  simp [NewField, field.Update]

/-- C4: with the driver initialized, `DrawBox(style)` returns the error
"Unknown Box Style" exactly when `style` is none of the four registered styles; it then
issues no driver call and leaves the field, its border included, as it was. -/
theorem DrawBox_unknown_style (f : field) (style : boxStyle) :
    ((f.DrawBox true style).err = some errUnknownStyle
      ↔ style ≠ boxStyleClear ∧ style ≠ BoxStyleNone ∧ style ≠ BoxStyleASCII
          ∧ style ≠ BoxStyleUnicode) ∧
    ((f.DrawBox true style).err = some errUnknownStyle
      → (f.DrawBox true style).calls = [] ∧ (f.DrawBox true style).f = f) := by
  rw [← lookup_eq_none_iff]
  cases h : boxRunesMap.lookup style with
  | none => simp [DrawBox_of_none f style h]
  | some r => simp [DrawBox_of_some f style r h]

/-! ## Border drawing -/

theorem lastWrite_cons (c : tb.Call) (cs : List tb.Call) (a b : Int) :
    tb.lastWrite (c :: cs) a b
      = match tb.lastWrite cs a b with
        | some v => some v
        | none => c.writes a b := rfl

theorem writes_setCell (x y : Int) (ch : rune) (a b : Int) :
    (setCell x y ch).writes a b = if a = x ∧ b = y then some (cellOf ch) else none := rfl

/-- The last write of the loop of `DrawBox` at a position, when the positions of the loop
do not overflow: the glyph on the rows `y-1` and `y+1` in the columns the counter runs
through. -/
theorem lastWrite_drawTop (f : field) (ch : rune) (hy1 : wrap (f.y - 1) = f.y - 1)
    (hy2 : wrap (f.y + 1) = f.y + 1) (n : Nat) :
    ∀ (i : Int), (∀ j : Int, i ≤ j → j < i + n → wrap (f.x + j) = f.x + j) →
    ∀ (a b : Int),
      tb.lastWrite (drawTop f ch n i) a b
        = if (b = f.y - 1 ∨ b = f.y + 1) ∧ f.x + i ≤ a ∧ a < f.x + i + n
          then some (cellOf ch) else none := by
  induction n with
  | zero =>
    intro i _ a b
    simp only [drawTop, tb.lastWrite]
    split_ifs with h
    · exfalso; omega
    · rfl
  | succ n ih =>
    intro i hx a b
    have hxi : wrap (f.x + i) = f.x + i := hx i (le_refl i) (by push_cast; omega)
    rw [drawTop, lastWrite_cons, lastWrite_cons,
      ih (i + 1) (fun j h1 h2 => hx j (by omega) (by push_cast; omega)),
      writes_setCell, writes_setCell, hxi, hy1, hy2]
    push_cast
    split_ifs <;> first | rfl | (exfalso; omega)

/-- The `int` operations of `DrawBox` are exact on a field without overflow. -/
theorem noOverflow_wraps (f : field) (hlen : 0 ≤ f.len) (h : f.noOverflow) :
    wrap (f.x - 1) = f.x - 1 ∧ wrap (wrap (f.x + f.len) + 1) = f.x + f.len + 1 ∧
    wrap (f.y - 1) = f.y - 1 ∧ wrap (f.y + 1) = f.y + 1 ∧ wrap (f.len + 1) = f.len + 1 ∧
    (∀ j : Int, 0 ≤ j → j ≤ f.len → wrap (f.x + j) = f.x + j) := by
  simp only [field.noOverflow, intMin, intMax] at h
  refine ⟨?_, ?_, ?_, ?_, ?_, ?_⟩
  · simp only [wrap]; omega
  · simp only [wrap]; omega
  · simp only [wrap]; omega
  · simp only [wrap]; omega
  · simp only [wrap]; omega
  · intro j h0 h1
    simp only [wrap]; omega

/-- The last write of six `SetCell` calls at a position: a later call wins over an
earlier one. -/
theorem lastWrite_six (x1 y1 x2 y2 x3 y3 x4 y4 x5 y5 x6 y6 : Int) (c1 c2 c3 c4 c5 c6 : rune)
    (a b : Int) :
    tb.lastWrite [setCell x1 y1 c1, setCell x2 y2 c2, setCell x3 y3 c3, setCell x4 y4 c4,
        setCell x5 y5 c5, setCell x6 y6 c6] a b
      = if a = x6 ∧ b = y6 then some (cellOf c6)
        else if a = x5 ∧ b = y5 then some (cellOf c5)
        else if a = x4 ∧ b = y4 then some (cellOf c4)
        else if a = x3 ∧ b = y3 then some (cellOf c3)
        else if a = x2 ∧ b = y2 then some (cellOf c2)
        else if a = x1 ∧ b = y1 then some (cellOf c1)
        else none := by
  simp only [lastWrite_cons, tb.lastWrite, writes_setCell]
  split_ifs <;> rfl

/-- The last write of a successful `DrawBox` at a position, on a field without overflow:
the loop comes last, and a later call wins over an earlier one. -/
theorem DrawBox_lastWrite (f : field) (s : boxStyle) (r : List rune)
    (h : boxRunesMap.lookup s = some r) (hlen : 0 ≤ f.len) (hno : f.noOverflow)
    (a b : Int) :
    tb.lastWrite (f.DrawBox true s).calls a b =
      if (b = f.y - 1 ∨ b = f.y + 1) ∧ f.x ≤ a ∧ a ≤ f.x + f.len then
        some (cellOf (r.getD 4 0))
      else if a = f.x + f.len + 1 ∧ b = f.y then some (cellOf (r.getD 5 0))
      else if a = f.x - 1 ∧ b = f.y then some (cellOf (r.getD 5 0))
      else if a = f.x + f.len + 1 ∧ b = f.y + 1 then some (cellOf (r.getD 3 0))
      else if a = f.x - 1 ∧ b = f.y + 1 then some (cellOf (r.getD 2 0))
      else if a = f.x + f.len + 1 ∧ b = f.y - 1 then some (cellOf (r.getD 1 0))
      else if a = f.x - 1 ∧ b = f.y - 1 then some (cellOf (r.getD 0 0))
      else none := by
  obtain ⟨e1, e2, e3, e4, e5, e6⟩ := noOverflow_wraps f hlen hno
  have hcond : ((b = f.y - 1 ∨ b = f.y + 1) ∧ f.x + 0 ≤ a
        ∧ a < f.x + 0 + (((f.len + 1).toNat : Nat) : Int))
      ↔ ((b = f.y - 1 ∨ b = f.y + 1) ∧ f.x ≤ a ∧ a ≤ f.x + f.len) := by omega
  rw [DrawBox_of_some f s r h]
  simp only [e1, e2, e3, e4, e5]
  rw [lastWrite_append, lastWrite_append,
    lastWrite_drawTop f _ e3 e4 _ 0 (fun j h0 h1 => e6 j h0 (by omega)), lastWrite_six]
  simp only [tb.lastWrite, tb.Call.writes, hcond]
  by_cases hc : (b = f.y - 1 ∨ b = f.y + 1) ∧ f.x ≤ a ∧ a ≤ f.x + f.len
  · simp only [if_pos hc]
  · simp only [if_neg hc]

/-- The cell grid after a successful `DrawBox` on a field without overflow, cell by
cell. -/
theorem DrawBox_cell (f : field) (s : boxStyle) (r : List rune)
    (h : boxRunesMap.lookup s = some r) (hlen : 0 ≤ f.len) (hno : f.noOverflow)
    (g : tb.Grid) (a b : Int) :
    g.run (f.DrawBox true s).calls a b =
      if g.inside a b then
        if (b = f.y - 1 ∨ b = f.y + 1) ∧ f.x ≤ a ∧ a ≤ f.x + f.len then cellOf (r.getD 4 0)
        else if a = f.x + f.len + 1 ∧ b = f.y then cellOf (r.getD 5 0)
        else if a = f.x - 1 ∧ b = f.y then cellOf (r.getD 5 0)
        else if a = f.x + f.len + 1 ∧ b = f.y + 1 then cellOf (r.getD 3 0)
        else if a = f.x - 1 ∧ b = f.y + 1 then cellOf (r.getD 2 0)
        else if a = f.x + f.len + 1 ∧ b = f.y - 1 then cellOf (r.getD 1 0)
        else if a = f.x - 1 ∧ b = f.y - 1 then cellOf (r.getD 0 0)
        else g a b
      else g a b := by
  rw [run_cells, DrawBox_lastWrite f s r h hlen hno]
  split_ifs <;> rfl

/-- A successful `DrawBox` on a field without overflow changes no cell off the border of
the field. -/
theorem DrawBox_frame (f : field) (s : boxStyle) (hlen : 0 ≤ f.len) (hno : f.noOverflow)
    (g : tb.Grid) (a b : Int) (hab : ¬ f.onBorder a b) :
    g.run (f.DrawBox true s).calls a b = g a b := by
  cases h : boxRunesMap.lookup s with
  | none => rw [DrawBox_of_none f s h]; rfl
  | some r =>
    unfold field.onBorder at hab
    rw [DrawBox_cell f s r h hlen hno]
    split_ifs <;> first | rfl | (exfalso; omega)

/-- The corner cells on the row above after a successful `DrawBox`. -/
theorem DrawBox_top_corners (f : field) (s : boxStyle) (r : List rune) (g : tb.Grid)
    (hlen : 0 ≤ f.len) (hno : f.noOverflow) (h : boxRunesMap.lookup s = some r) :
    (g.inside (f.x - 1) (f.y - 1) →
      g.run (f.DrawBox true s).calls (f.x - 1) (f.y - 1) = cellOf (r.getD 0 0)) ∧
    (g.inside (f.x + f.len + 1) (f.y - 1) →
      g.run (f.DrawBox true s).calls (f.x + f.len + 1) (f.y - 1) = cellOf (r.getD 1 0)) := by
  constructor <;> intro hin <;> rw [DrawBox_cell f s r h hlen hno, if_pos hin] <;>
    split_ifs <;> first | rfl | (exfalso; omega)

/-- The corner cells on the row below after a successful `DrawBox`. -/
theorem DrawBox_bottom_corners (f : field) (s : boxStyle) (r : List rune) (g : tb.Grid)
    (hlen : 0 ≤ f.len) (hno : f.noOverflow) (h : boxRunesMap.lookup s = some r) :
    (g.inside (f.x - 1) (f.y + 1) →
      g.run (f.DrawBox true s).calls (f.x - 1) (f.y + 1) = cellOf (r.getD 2 0)) ∧
    (g.inside (f.x + f.len + 1) (f.y + 1) →
      g.run (f.DrawBox true s).calls (f.x + f.len + 1) (f.y + 1) = cellOf (r.getD 3 0)) := by
  constructor <;> intro hin <;> rw [DrawBox_cell f s r h hlen hno, if_pos hin] <;>
    split_ifs <;> first | rfl | (exfalso; omega)

/-- The two side cells on the text row after a successful `DrawBox`. -/
theorem DrawBox_sides (f : field) (s : boxStyle) (r : List rune) (g : tb.Grid)
    (hlen : 0 ≤ f.len) (hno : f.noOverflow) (h : boxRunesMap.lookup s = some r) :
    (g.inside (f.x - 1) f.y →
      g.run (f.DrawBox true s).calls (f.x - 1) f.y = cellOf (r.getD 5 0)) ∧
    (g.inside (f.x + f.len + 1) f.y →
      g.run (f.DrawBox true s).calls (f.x + f.len + 1) f.y = cellOf (r.getD 5 0)) := by
  constructor <;> intro hin <;> rw [DrawBox_cell f s r h hlen hno, if_pos hin] <;>
    split_ifs <;> first | rfl | (exfalso; omega)

/-- The horizontal edges after a successful `DrawBox`. -/
theorem DrawBox_edges (f : field) (s : boxStyle) (r : List rune) (g : tb.Grid)
    (hlen : 0 ≤ f.len) (hno : f.noOverflow) (h : boxRunesMap.lookup s = some r)
    (i : Int) (h0 : 0 ≤ i) (h1 : i ≤ f.len) :
    (g.inside (f.x + i) (f.y - 1) →
      g.run (f.DrawBox true s).calls (f.x + i) (f.y - 1) = cellOf (r.getD 4 0)) ∧
    (g.inside (f.x + i) (f.y + 1) →
      g.run (f.DrawBox true s).calls (f.x + i) (f.y + 1) = cellOf (r.getD 4 0)) := by
  constructor <;> intro hin <;> rw [DrawBox_cell f s r h hlen hno, if_pos hin, if_pos] <;>
    omega

/-- C5 (as amended): for a field with length >= 0 on which no `int` operation of
`DrawBox` overflows (x-1, x+len+1, len+1, y-1, y+1), a registered style with the glyphs
g0..g5 and every grid, `DrawBox(style)` with the driver initialized succeeds, and
afterwards each of these positions that lies inside the grid holds: g0 at (x-1, y-1), g1
at (x+len+1, y-1), g2 at (x-1, y+1), g3 at (x+len+1, y+1), g5 at (x-1, y) and
(x+len+1, y), g4 at (x+i, y-1) and (x+i, y+1) for 0 <= i <= len; every other cell, the
text row between the two side cells and every position outside the grid included, is
unchanged. -/
theorem DrawBox_geometry (f : field) (style : boxStyle) (g0 g1 g2 g3 g4 g5 : rune)
    (g : tb.Grid) (hlen : 0 ≤ f.len) (hno : f.noOverflow)
    (hreg : boxRunesMap.lookup style = some [g0, g1, g2, g3, g4, g5]) :
    (f.DrawBox true style).err = none ∧
    (g.inside (f.x - 1) (f.y - 1) →
      g.run (f.DrawBox true style).calls (f.x - 1) (f.y - 1) = cellOf g0) ∧
    (g.inside (f.x + f.len + 1) (f.y - 1) →
      g.run (f.DrawBox true style).calls (f.x + f.len + 1) (f.y - 1) = cellOf g1) ∧
    (g.inside (f.x - 1) (f.y + 1) →
      g.run (f.DrawBox true style).calls (f.x - 1) (f.y + 1) = cellOf g2) ∧
    (g.inside (f.x + f.len + 1) (f.y + 1) →
      g.run (f.DrawBox true style).calls (f.x + f.len + 1) (f.y + 1) = cellOf g3) ∧
    (g.inside (f.x - 1) f.y →
      g.run (f.DrawBox true style).calls (f.x - 1) f.y = cellOf g5) ∧
    (g.inside (f.x + f.len + 1) f.y →
      g.run (f.DrawBox true style).calls (f.x + f.len + 1) f.y = cellOf g5) ∧
    (∀ i : Int, 0 ≤ i → i ≤ f.len →
      (g.inside (f.x + i) (f.y - 1) →
        g.run (f.DrawBox true style).calls (f.x + i) (f.y - 1) = cellOf g4) ∧
      (g.inside (f.x + i) (f.y + 1) →
        g.run (f.DrawBox true style).calls (f.x + i) (f.y + 1) = cellOf g4)) ∧
    (∀ a b : Int, ¬ f.onBorder a b → g.run (f.DrawBox true style).calls a b = g a b) ∧
    (∀ a b : Int, ¬ g.inside a b → g.run (f.DrawBox true style).calls a b = g a b) ∧
    (∀ a : Int, f.x ≤ a → a ≤ f.x + f.len →
      g.run (f.DrawBox true style).calls a f.y = g a f.y) := by
  have ht := DrawBox_top_corners f style _ g hlen hno hreg
  have hb := DrawBox_bottom_corners f style _ g hlen hno hreg
  have hs := DrawBox_sides f style _ g hlen hno hreg
  simp only [List.getD_cons_zero, List.getD_cons_succ] at ht hb hs
  refine ⟨by rw [DrawBox_of_some f style _ hreg], ht.1, ht.2, hb.1, hb.2, hs.1, hs.2,
    ?_, ?_, ?_, ?_⟩
  · intro i h0 h1
    have he := DrawBox_edges f style _ g hlen hno hreg i h0 h1
    simp only [List.getD_cons_zero, List.getD_cons_succ] at he
    exact he
  · intro a b hab
    exact DrawBox_frame f style hlen hno g a b hab
  · intro a b hab
    exact run_outside g _ a b hab
  · intro a h0 h1
    apply DrawBox_frame f style hlen hno
    unfold field.onBorder
    omega

/-- C5 (witness): the ASCII border of the field at x=10, y=5 of length 4 on a blank
screen of 80 columns and 24 rows has '+' in the top-left corner (9, 4). -/
theorem DrawBox_geometry_witness :
    (0 : Int) ≤ (⟨10, 5, 4, boxStyleClear, []⟩ : field).len ∧
    (⟨10, 5, 4, boxStyleClear, []⟩ : field).noOverflow ∧
    blank.inside ((⟨10, 5, 4, boxStyleClear, []⟩ : field).x - 1)
      ((⟨10, 5, 4, boxStyleClear, []⟩ : field).y - 1) ∧
    blank.run ((⟨10, 5, 4, boxStyleClear, []⟩ : field).DrawBox true BoxStyleASCII).calls
      ((⟨10, 5, 4, boxStyleClear, []⟩ : field).x - 1)
      ((⟨10, 5, 4, boxStyleClear, []⟩ : field).y - 1) = cellOf 43 :=
  ⟨by decide, by decide, by decide,
    (DrawBox_geometry ⟨10, 5, 4, boxStyleClear, []⟩ BoxStyleASCII 43 43 43 43 45 124 blank
      (by decide) (by decide) (by decide)).2.1 (by decide)⟩

/-- C5 (counterexample): (1) the field `NewField(1, 0, MaxInt, "")` returns has length
MaxInt >= 0; the loop bound `len+1` overflows to MinInt, so `DrawBox(ASCII)` issues its
six corner and side calls only, and the cell (x+0, y-1) = (0, 0) of the blank screen does
not hold '-'. (2) For the field at x=0, y=0 of length 4 the position (x-1, y-1) is
outside the grid, and the grid does not hold '+' there. -/
theorem DrawBox_geometry_fails :
    (NewField true 1 0 intMax []).fld = some ⟨⟨0, 1, intMax, boxStyleClear, []⟩⟩ ∧
    (0 : Int) ≤ (⟨0, 1, intMax, boxStyleClear, []⟩ : field).len ∧
    ((⟨0, 1, intMax, boxStyleClear, []⟩ : field).DrawBox true BoxStyleASCII).err = none ∧
    (((⟨0, 1, intMax, boxStyleClear, []⟩ : field).DrawBox true BoxStyleASCII).calls.filter
      tb.isSetCell).length = 6 ∧
    blank.inside 0 0 ∧
    blank.run ((⟨0, 1, intMax, boxStyleClear, []⟩ : field).DrawBox true BoxStyleASCII).calls
      ((⟨0, 1, intMax, boxStyleClear, []⟩ : field).x + 0)
      ((⟨0, 1, intMax, boxStyleClear, []⟩ : field).y - 1) ≠ cellOf 45 ∧
    ¬ blank.inside (-1) (-1) ∧
    blank.run ((⟨0, 0, 4, boxStyleClear, []⟩ : field).DrawBox true BoxStyleASCII).calls
      ((⟨0, 0, 4, boxStyleClear, []⟩ : field).x - 1)
      ((⟨0, 0, 4, boxStyleClear, []⟩ : field).y - 1) ≠ cellOf 43 := by
  decide

/-! ## The driver calls of `DrawBox`, whatever the field -/

/-- The calls of the loop of `DrawBox`. -/
theorem mem_drawTop (f : field) (ch : rune) (n : Nat) :
    ∀ (i : Int) (c : tb.Call), c ∈ drawTop f ch n i →
      ∃ j : Int, i ≤ j ∧ j < i + n ∧
        (c = setCell (wrap (f.x + j)) (wrap (f.y - 1)) ch
          ∨ c = setCell (wrap (f.x + j)) (wrap (f.y + 1)) ch) := by
  induction n with
  | zero => intro i c hc; simp [drawTop] at hc
  | succ n ih =>
    intro i c hc
    simp only [drawTop, List.mem_cons] at hc
    rcases hc with hc | hc | hc
    · exact ⟨i, le_refl i, by push_cast; omega, Or.inl hc⟩
    · exact ⟨i, le_refl i, by push_cast; omega, Or.inr hc⟩
    · obtain ⟨j, h1, h2, h3⟩ := ih (i + 1) c hc
      exact ⟨j, by omega, by push_cast; omega, h3⟩

/-- The loop of `DrawBox` with another glyph addresses the same positions in the same
order. -/
theorem drawTop_withRune (f : field) (ch c : rune) (n : Nat) :
    ∀ i : Int, (drawTop f ch n i).map (tb.Call.withRune c) = drawTop f c n i := by
  induction n with
  | zero => intro i; rfl
  | succ n ih =>
    intro i
    simp only [drawTop, List.map_cons, ih]
    rfl

/-- The loop of `DrawBox` issues two `SetCell` calls per iteration. -/
theorem drawTop_count (f : field) (ch : rune) (n : Nat) :
    ∀ i : Int, ((drawTop f ch n i).filter tb.isSetCell).length = 2 * n := by
  induction n with
  | zero => intro i; rfl
  | succ n ih =>
    intro i
    simp only [drawTop, setCell, List.filter_cons, tb.isSetCell, if_true, List.length_cons, ih]
    omega

/-- The calls of `DrawBox` for a style whose glyphs are all `c` are the calls for any
registered style with every character replaced by `c`. -/
theorem DrawBox_withRune (f : field) (s t : boxStyle) (r : List rune) (c : rune)
    (hs : boxRunesMap.lookup s = some r)
    (ht : boxRunesMap.lookup t = some [c, c, c, c, c, c]) :
    (f.DrawBox true s).calls.map (tb.Call.withRune c) = (f.DrawBox true t).calls := by
  rw [DrawBox_of_some f s r hs, DrawBox_of_some f t _ ht]
  simp only [List.map_append, List.map_cons, List.map_nil, drawTop_withRune,
    List.getD_cons_zero, List.getD_cons_succ]
  rfl

/-- The calls of a successful `DrawBox`: a flush, or a `SetCell` with a glyph of the style
and the default colours, on the text row in one of the two side columns, or on the row
above or the row below. -/
theorem mem_DrawBox (f : field) (s : boxStyle) (r : List rune)
    (h : boxRunesMap.lookup s = some r) (c : tb.Call) (hc : c ∈ (f.DrawBox true s).calls) :
    c = tb.Call.Flush ∨ ∃ (a b : Int) (k : Nat), k ≤ 5 ∧ c = setCell a b (r.getD k 0) ∧
      (((a = wrap (f.x - 1) ∨ a = wrap (wrap (f.x + f.len) + 1)) ∧ b = f.y)
        ∨ b = wrap (f.y - 1) ∨ b = wrap (f.y + 1)) := by
  rw [DrawBox_of_some f s r h] at hc
  simp only [List.mem_append, List.mem_cons, List.mem_singleton, List.not_mem_nil,
    or_false] at hc
  rcases hc with ((hc | hc | hc | hc | hc | hc) | hc) | hc
  · exact Or.inr ⟨_, _, 0, by omega, hc, Or.inr (Or.inl rfl)⟩
  · exact Or.inr ⟨_, _, 1, by omega, hc, Or.inr (Or.inl rfl)⟩
  · exact Or.inr ⟨_, _, 2, by omega, hc, Or.inr (Or.inr rfl)⟩
  · exact Or.inr ⟨_, _, 3, by omega, hc, Or.inr (Or.inr rfl)⟩
  · exact Or.inr ⟨_, _, 5, by omega, hc, Or.inl ⟨Or.inl rfl, rfl⟩⟩
  · exact Or.inr ⟨_, _, 5, by omega, hc, Or.inl ⟨Or.inr rfl, rfl⟩⟩
  · obtain ⟨j, -, -, h3 | h3⟩ := mem_drawTop f _ _ 0 c hc
    · exact Or.inr ⟨_, _, 4, by omega, h3, Or.inr (Or.inl rfl)⟩
    · exact Or.inr ⟨_, _, 4, by omega, h3, Or.inr (Or.inr rfl)⟩
  · exact Or.inl hc

/-- `DrawBox` touches neither the position nor the length nor the text of a field. -/
theorem DrawBox_f_eq (f : field) (IsInit : Bool) (s : boxStyle) :
    (f.DrawBox IsInit s).f = f ∨ (f.DrawBox IsInit s).f = { f with border := s } := by
  cases IsInit with
  | false => left; rw [DrawBox_not_init]
  | true =>
    cases h : boxRunesMap.lookup s with
    | none => left; rw [DrawBox_of_none f s h]
    | some r => right; rw [DrawBox_of_some f s r h]

/-- The loop of `DrawBox` depends on the position of the field only. -/
theorem drawTop_congr (f f2 : field) (hx : f2.x = f.x) (hy : f2.y = f.y) (ch : rune)
    (n : Nat) : ∀ i : Int, drawTop f2 ch n i = drawTop f ch n i := by
  induction n with
  | zero => intro i; rfl
  | succ n ih => intro i; simp only [drawTop, ih, hx, hy]

/-- The driver calls of `DrawBox` do not depend on the stored border and the cached text
of the field. -/
theorem DrawBox_calls_congr (f f2 : field) (hx : f2.x = f.x) (hy : f2.y = f.y)
    (hl : f2.len = f.len) (s : boxStyle) :
    (f2.DrawBox true s).calls = (f.DrawBox true s).calls := by
  cases h : boxRunesMap.lookup s with
  | none => rw [DrawBox_of_none _ s h, DrawBox_of_none f s h]
  | some r =>
    rw [DrawBox_of_some _ s r h, DrawBox_of_some f s r h]
    simp only [hx, hy, hl, drawTop_congr f f2 hx hy]

theorem DrawBox_calls_border (f : field) (b s : boxStyle) :
    (({ f with border := b } : field).DrawBox true s).calls = (f.DrawBox true s).calls :=
  DrawBox_calls_congr f { f with border := b } rfl rfl rfl s

/-- The driver calls of a second `DrawBox` are those of the same call on the field as it
was before the first. -/
theorem DrawBox_calls_after (f : field) (s t : boxStyle) :
    ((f.DrawBox true s).f.DrawBox true t).calls = (f.DrawBox true t).calls := by
  rcases DrawBox_f_eq f true s with h | h
  · rw [h]
  · rw [h, DrawBox_calls_border]

/-- C6 (counterexample): for the field at x=10, y=5 of length 4, `DrawBox(BoxStyleNone)`
with the driver initialized issues sixteen `SetCell` calls, one of them for the cell
(9, 4) with the rune 0; a screen that holds 'X' in the cell (9, 4) does not hold it
afterwards. -/
theorem DrawBox_None_writes :
    (((⟨10, 5, 4, boxStyleClear, []⟩ : field).DrawBox true BoxStyleNone).calls.filter
      tb.isSetCell).length = 16 ∧
    setCell 9 4 0 ∈ ((⟨10, 5, 4, boxStyleClear, []⟩ : field).DrawBox true BoxStyleNone).calls ∧
    (blank.SetCell 9 4 (cellOf 88)) 9 4 = cellOf 88 ∧
    (blank.SetCell 9 4 (cellOf 88)).run
      ((⟨10, 5, 4, boxStyleClear, []⟩ : field).DrawBox true BoxStyleNone).calls 9 4
      ≠ cellOf 88 := by
  decide

/-- C6 (as amended): with the driver initialized, `DrawBox(BoxStyleNone)` succeeds and
issues the `SetCell` calls that `DrawBox` issues for every registered style, at the same
positions, in the same order and with the same colours, each carrying the rune 0 as its
character, followed by the flush: six calls for the corners and the side cells and two
for every iteration of the loop. -/
theorem DrawBox_None_calls (f : field) :
    (f.DrawBox true BoxStyleNone).err = none ∧
    (∀ (style : boxStyle) (r : List rune), boxRunesMap.lookup style = some r →
      (f.DrawBox true BoxStyleNone).calls
        = (f.DrawBox true style).calls.map (tb.Call.withRune 0)) ∧
    ((f.DrawBox true BoxStyleNone).calls.filter tb.isSetCell).length
      = 6 + 2 * (wrap (f.len + 1)).toNat ∧
    (f.DrawBox true BoxStyleNone).calls.getLast? = some tb.Call.Flush := by
  have h : boxRunesMap.lookup BoxStyleNone = some [0, 0, 0, 0, 0, 0] := by decide
  refine ⟨by rw [DrawBox_of_some f _ _ h], ?_, ?_, ?_⟩
  · intro style r hr
    exact (DrawBox_withRune f style BoxStyleNone r 0 hr h).symm
  · rw [DrawBox_of_some f _ _ h]
    simp only [List.filter_append, List.length_append, drawTop_count]
    rfl
  · rw [DrawBox_of_some f _ _ h]
    exact List.getLast?_concat _

/-- C6 (witness): the calls of `DrawBox(None)` on the field at x=10, y=5 of length 4 are
those of `DrawBox(ASCII)` with the rune 0 for every glyph. -/
theorem DrawBox_None_calls_witness :
    boxRunesMap.lookup BoxStyleASCII = some [43, 43, 43, 43, 45, 124] ∧
    ((⟨10, 5, 4, boxStyleClear, []⟩ : field).DrawBox true BoxStyleNone).calls
      = ((⟨10, 5, 4, boxStyleClear, []⟩ : field).DrawBox true BoxStyleASCII).calls.map
          (tb.Call.withRune 0) :=
  ⟨by decide,
    (DrawBox_None_calls ⟨10, 5, 4, boxStyleClear, []⟩).2.1 BoxStyleASCII
      [43, 43, 43, 43, 45, 124] (by decide)⟩

/-! ## Move -/

/-- The field after `Move`, for a field whose border is a registered style. -/
theorem Move_of_registered (f : field) (IsInit : Bool) (dir : moveDir)
    (h : (boxRunesMap.lookup f.border).isSome = true) :
    (f.Move IsInit dir).1 =
      if dir = FieldMoveLeft then { f with x := wrap (f.x - 1) }
      else if dir = FieldMoveRight then { f with x := wrap (f.x + 1) }
      else if dir = FieldMoveUp then { f with y := wrap (f.y - 1) }
      else if dir = FieldMoveDown then { f with y := wrap (f.y + 1) }
      else f := by
  cases IsInit with
  | false =>
    simp only [field.Move, DrawBox_not_init, Update_not_init]
  | true =>
    obtain ⟨r, hr⟩ := Option.isSome_iff_exists.mp h
    have hc : boxRunesMap.lookup boxStyleClear = some [32, 32, 32, 32, 32, 32] := by decide
    simp only [field.Move, DrawBox_of_some f _ _ hc]
    split_ifs <;> simp [DrawBox_of_some _ _ r hr, field.Update]

/-- The border of a field the program can hold is a registered style. -/
theorem reachable_border (f : field) (h : Reachable f) :
    (boxRunesMap.lookup f.border).isSome = true := by
  induction h with
  | new IsInit y x len text F hF =>
    cases IsInit with
    | false => simp [NewField, field.Update] at hF
    | true =>
      rw [NewField_of_init y x len text] at hF
      cases hF
      rfl
  | drawBox f IsInit s _ ih =>
    cases IsInit with
    | false => rw [DrawBox_not_init]; exact ih
    | true =>
      cases hs : boxRunesMap.lookup s with
      | none => rw [DrawBox_of_none f s hs]; exact ih
      | some r => rw [DrawBox_of_some f s r hs]; simp [hs]
  | update f IsInit s _ ih =>
    cases IsInit with
    | false => rw [Update_not_init]; exact ih
    | true => simpa [field.Update] using ih
  | move f IsInit dir _ ih =>
    rw [Move_of_registered f IsInit dir ih]
    split_ifs <;> exact ih

/-- C7 (counterexample): the field `NewField(0, MinInt, 0, "")` returns has x = MinInt;
after `Move(Left)` its x is MaxInt, not x-1: the decrement overflows. Likewise `Move(Right)`
on the field created at x = MaxInt gives x = MinInt. -/
theorem Move_wraps_at_intMin :
    (NewField true 0 intMin 0 []).fld = some ⟨⟨intMin, 0, 0, boxStyleClear, []⟩⟩ ∧
    ((⟨intMin, 0, 0, boxStyleClear, []⟩ : field).Move true FieldMoveLeft).1.x = intMax ∧
    ((⟨intMin, 0, 0, boxStyleClear, []⟩ : field).Move true FieldMoveLeft).1.x
      ≠ (⟨intMin, 0, 0, boxStyleClear, []⟩ : field).x - 1 ∧
    ((⟨intMin, 0, 0, boxStyleClear, []⟩ : field).Move false FieldMoveLeft).1.x = intMax ∧
    ((⟨intMax, 0, 0, boxStyleClear, []⟩ : field).Move true FieldMoveRight).1.x = intMin := by
  decide

/-- C7 (as amended): for every field the program can hold and each of the four
directions, `Move` replaces one coordinate by the result of the `int` operation (Left:
x-1, Right: x+1, Up: y-1, Down: y+1) and leaves the other coordinate, the length, the
border style and the cached text as they were, with the driver initialized or not. The
result of the operation is the coordinate changed by exactly one unless it overflows: a
decrement of MinInt gives MaxInt and an increment of MaxInt gives MinInt. -/
theorem Move_field (f : field) (IsInit : Bool) (h : Reachable f) :
    (f.Move IsInit FieldMoveLeft).1 = { f with x := wrap (f.x - 1) } ∧
    (f.Move IsInit FieldMoveRight).1 = { f with x := wrap (f.x + 1) } ∧
    (f.Move IsInit FieldMoveUp).1 = { f with y := wrap (f.y - 1) } ∧
    (f.Move IsInit FieldMoveDown).1 = { f with y := wrap (f.y + 1) } ∧
    (∀ v : Int, intMin < v → v ≤ intMax → wrap (v - 1) = v - 1) ∧
    (∀ v : Int, intMin ≤ v → v < intMax → wrap (v + 1) = v + 1) ∧
    wrap (intMin - 1) = intMax ∧ wrap (intMax + 1) = intMin := by
  have hb := reachable_border f h
  refine ⟨?_, ?_, ?_, ?_, ?_, ?_, by decide, by decide⟩
  · rw [Move_of_registered f IsInit _ hb]; simp [FieldMoveLeft]
  · rw [Move_of_registered f IsInit _ hb]; simp [FieldMoveLeft, FieldMoveRight]
  · rw [Move_of_registered f IsInit _ hb]; simp [FieldMoveLeft, FieldMoveRight, FieldMoveUp]
  · rw [Move_of_registered f IsInit _ hb]
    simp [FieldMoveLeft, FieldMoveRight, FieldMoveUp, FieldMoveDown]
  · intro v h1 h2
    exact wrap_of_int _ (by omega) (by omega)
  · intro v h1 h2
    exact wrap_of_int _ (by omega) (by omega)

/-- C7 (witness): the field created at y=5, x=10 with length 4 and text "hi", after an
ASCII border was drawn, moved to the left with the driver initialized. -/
theorem Move_field_witness :
    Reachable ⟨10, 5, 4, BoxStyleASCII, [104, 105]⟩ ∧
    ((⟨10, 5, 4, BoxStyleASCII, [104, 105]⟩ : field).Move true FieldMoveLeft).1
      = ⟨9, 5, 4, BoxStyleASCII, [104, 105]⟩ :=
  ⟨Reachable.drawBox ⟨10, 5, 4, boxStyleClear, [104, 105]⟩ true BoxStyleASCII
      (Reachable.new true 5 10 4 [104, 105] ⟨⟨10, 5, 4, boxStyleClear, [104, 105]⟩⟩ (by decide)),
    (Move_field ⟨10, 5, 4, BoxStyleASCII, [104, 105]⟩ true
      (Reachable.drawBox ⟨10, 5, 4, boxStyleClear, [104, 105]⟩ true BoxStyleASCII
        (Reachable.new true 5 10 4 [104, 105] ⟨⟨10, 5, 4, boxStyleClear, [104, 105]⟩⟩
          (by decide)))).1⟩

/-! ## Redrawing a border -/

/-- A second sequence of driver calls that addresses every position the first one
addresses leaves the grid that it leaves after the untouched grid. -/
theorem run_run_cover (g : tb.Grid) (cs ds : List tb.Call)
    (hcover : ∀ a b : Int, tb.lastWrite ds a b = none → tb.lastWrite cs a b = none) :
    (g.run cs).run ds = g.run ds := by
  apply grid_ext
  · rw [run_width, run_width, run_width]
  · rw [run_height, run_height, run_height]
  · intro a b
    rw [run_cells ds (g.run cs), run_cells ds g, run_cells cs g]
    by_cases hin : g.inside a b
    · rw [if_pos ((run_inside g cs a b).mpr hin), if_pos hin, if_pos hin]
      cases hd : tb.lastWrite ds a b with
      | some v => rfl
      | none => rw [hcover a b hd]; rfl
    · rw [if_neg (fun h => hin ((run_inside g cs a b).mp h)), if_neg hin, if_neg hin]

/-- C8: with the driver initialized, a second `DrawBox(style)` right after the first
leaves the field state, the returned error and the whole grid as the first call left
them, for every field, grid and style. -/
theorem DrawBox_idempotent (f : field) (g : tb.Grid) (style : boxStyle) :
    ((f.DrawBox true style).f.DrawBox true style).f = (f.DrawBox true style).f ∧
    ((f.DrawBox true style).f.DrawBox true style).err = (f.DrawBox true style).err ∧
    (g.run (f.DrawBox true style).calls).run
        ((f.DrawBox true style).f.DrawBox true style).calls
      = g.run (f.DrawBox true style).calls := by
  refine ⟨?_, ?_, ?_⟩
  · cases h : boxRunesMap.lookup style with
    | none => simp [DrawBox_of_none _ style h]
    | some r => simp [DrawBox_of_some _ style r h]
  · cases h : boxRunesMap.lookup style with
    | none => simp [DrawBox_of_none _ style h]
    | some r => simp [DrawBox_of_some _ style r h]
  · rw [DrawBox_calls_after]
    exact run_run_cover g _ _ (fun a b h => h)

theorem pos_withRune (c : rune) (d : tb.Call) : (d.withRune c).pos = d.pos := by
  cases d <;> rfl

/-- Replacing the characters of the calls does not change which positions are
addressed. -/
theorem lastWrite_withRune_none (cs : List tb.Call) (c : rune) (a b : Int)
    (h : tb.lastWrite (cs.map (tb.Call.withRune c)) a b = none) :
    tb.lastWrite cs a b = none := by
  rw [lastWrite_eq_none_iff] at h ⊢
  intro d hd
  have := h (d.withRune c) (List.mem_map_of_mem _ hd)
  rwa [pos_withRune] at this

/-- Every `SetCell` call of `DrawBox(Clear)` carries a space with the default colours. -/
theorem DrawBox_Clear_cell (f : field) (a b : Int) (v : tb.Cell)
    (h : tb.Call.SetCell a b v.Ch v.Fg v.Bg ∈ (f.DrawBox true boxStyleClear).calls) :
    v = cellOf 32 := by
  have hc : boxRunesMap.lookup boxStyleClear = some [32, 32, 32, 32, 32, 32] := by decide
  rcases mem_DrawBox f _ _ hc _ h with h1 | ⟨a2, b2, k, hk, h1, -⟩
  · cases h1
  · have hg : ([32, 32, 32, 32, 32, 32] : List rune).getD k 0 = 32 := by
      interval_cases k <;> rfl
    rw [hg] at h1
    simp only [setCell, tb.Call.SetCell.injEq] at h1
    obtain ⟨-, -, h3, h4, h5⟩ := h1
    cases v
    simp only at h3 h4 h5
    subst h3 h4 h5
    rfl

/-- C9: with the driver initialized, for every field, grid and style: `DrawBox(Clear)`
right after `DrawBox(s)` issues a `SetCell` with a space for every position that a
`SetCell` call of `DrawBox(s)` addressed (the corners, the side cells and the edge cells),
and a space is the last character written to that position, so that every such cell of
the grid holds a space afterwards (the driver ignores a write outside the grid); and the
resulting grid is the one that `DrawBox(Clear)` alone produces. -/
theorem DrawBox_Clear_after (f : field) (g : tb.Grid) (s : boxStyle) :
    (∀ (a b : Int) (ch fg bg : Nat),
      tb.Call.SetCell a b ch fg bg ∈ (f.DrawBox true s).calls →
      setCell a b 32 ∈ ((f.DrawBox true s).f.DrawBox true boxStyleClear).calls ∧
      tb.lastWrite ((f.DrawBox true s).f.DrawBox true boxStyleClear).calls a b
        = some (cellOf 32) ∧
      (g.inside a b →
        (g.run (f.DrawBox true s).calls).run
          ((f.DrawBox true s).f.DrawBox true boxStyleClear).calls a b = cellOf 32)) ∧
    (g.run (f.DrawBox true s).calls).run
        ((f.DrawBox true s).f.DrawBox true boxStyleClear).calls
      = g.run (f.DrawBox true boxStyleClear).calls := by
  have hc : boxRunesMap.lookup boxStyleClear = some [32, 32, 32, 32, 32, 32] := by decide
  rw [DrawBox_calls_after]
  constructor
  · intro a b ch fg bg hmem
    cases hs : boxRunesMap.lookup s with
    | none => rw [DrawBox_of_none f s hs] at hmem; cases hmem
    | some r =>
      have hmem2 : setCell a b 32 ∈ (f.DrawBox true boxStyleClear).calls := by
        rw [← DrawBox_withRune f s boxStyleClear r 32 hs hc]
        rcases mem_DrawBox f s r hs _ hmem with h1 | ⟨a2, b2, k, -, h1, -⟩
        · cases h1
        · have := List.mem_map_of_mem (tb.Call.withRune 32) hmem
          rw [h1] at this
          simp only [setCell, tb.Call.SetCell.injEq] at h1
          obtain ⟨rfl, rfl, -, -, -⟩ := h1
          exact this
      have hlw : tb.lastWrite (f.DrawBox true boxStyleClear).calls a b
          = some (cellOf 32) := by
        cases hl : tb.lastWrite (f.DrawBox true boxStyleClear).calls a b with
        | none => exact absurd rfl ((lastWrite_eq_none_iff _ a b).mp hl _ hmem2)
        | some v => rw [DrawBox_Clear_cell f a b v (lastWrite_mem _ a b v hl)]
      refine ⟨hmem2, hlw, fun hin => ?_⟩
      rw [run_cells, if_pos ((run_inside g _ a b).mpr hin), hlw]
      rfl
  · apply run_run_cover
    intro a b hnone
    cases hs : boxRunesMap.lookup s with
    | none => rw [DrawBox_of_none f s hs]; rfl
    | some r =>
      rw [← DrawBox_withRune f s boxStyleClear r 32 hs hc] at hnone
      exact lastWrite_withRune_none _ 32 a b hnone

/-! ## The geometry example -/

/-- C10 (counterexample): for the field created at y=5, x=10 with length 4,
`DrawBox(ASCII)` issues no `SetCell` call with '-' for the cells (9, 4), (15, 4), (9, 6)
and (15, 6); on a blank screen these cells hold '+' afterwards. -/
theorem DrawBox_ASCII_no_dash_at_corners :
    (NewField true 5 10 4 [104, 105]).fld = some ⟨⟨10, 5, 4, boxStyleClear, [104, 105]⟩⟩ ∧
    setCell 9 4 45 ∉
      ((⟨10, 5, 4, boxStyleClear, [104, 105]⟩ : field).DrawBox true BoxStyleASCII).calls ∧
    setCell 15 4 45 ∉
      ((⟨10, 5, 4, boxStyleClear, [104, 105]⟩ : field).DrawBox true BoxStyleASCII).calls ∧
    setCell 9 6 45 ∉
      ((⟨10, 5, 4, boxStyleClear, [104, 105]⟩ : field).DrawBox true BoxStyleASCII).calls ∧
    setCell 15 6 45 ∉
      ((⟨10, 5, 4, boxStyleClear, [104, 105]⟩ : field).DrawBox true BoxStyleASCII).calls ∧
    blank.run ((⟨10, 5, 4, boxStyleClear, [104, 105]⟩ : field).DrawBox true
      BoxStyleASCII).calls 9 4 = cellOf 43 ∧
    blank.run ((⟨10, 5, 4, boxStyleClear, [104, 105]⟩ : field).DrawBox true
      BoxStyleASCII).calls 15 6 = cellOf 43 := by
  decide

/-- C10 (as amended): for the field created at y=5, x=10 with length 4 (any text),
`DrawBox(ASCII)` writes '+' at (9,4), (15,4), (9,6) and (15,6), '|' at (9,5) and (15,5),
and '-' at the columns 10, 11, 12, 13 and 14 of the rows 4 and 6; these are all its
`SetCell` calls, followed by one `Flush`. -/
theorem DrawBox_ASCII_example (text : GoString) :
    (NewField true 5 10 4 text).fld.map
        (fun F => (F.field.DrawBox true BoxStyleASCII).calls)
      = some [ setCell 9 4 43, setCell 15 4 43, setCell 9 6 43, setCell 15 6 43,
          setCell 9 5 124, setCell 15 5 124,
          setCell 10 4 45, setCell 10 6 45, setCell 11 4 45, setCell 11 6 45,
          setCell 12 4 45, setCell 12 6 45, setCell 13 4 45, setCell 13 6 45,
          setCell 14 4 45, setCell 14 6 45, tb.Call.Flush ] := by
  rw [NewField_of_init 5 10 4 text]
  rfl

/-! ## The iterations of `range` -/

theorem decodeRune_ascii (b : Nat) (rest : List Nat) (h : b < 0x80) :
    decodeRune (b :: rest) = (b, 1) := by
  simp [decodeRune, h]

/-- Over an ASCII text `range` yields every byte with its index. -/
theorem rangeFrom_ascii (s : GoString) (h : isASCII s) :
    ∀ i : Nat, rangeFrom i 0 s = s.enumFrom i := by
  induction s with
  | nil => intro i; rfl
  | cons b rest ih =>
    intro i
    have hb : b < 0x80 := h b (List.mem_cons_self b rest)
    have hrest : isASCII rest := fun c hc => h c (List.mem_cons_of_mem b hc)
    rw [rangeFrom, decodeRune_ascii b rest hb, List.enumFrom_cons]
    simp only [Nat.sub_self]
    rw [ih hrest]

theorem rangeString_ascii (s : GoString) (h : isASCII s) : rangeString s = s.enum :=
  rangeFrom_ascii s h 0

/-- The characters of an ASCII text are its bytes. -/
theorem runes_ascii (s : GoString) (h : isASCII s) : runes s = s := by
  rw [runes, rangeString_ascii s h, List.enum, List.enumFrom_map_snd]

theorem mem_rangeString_ascii (s : GoString) (h : isASCII s) (i : Nat) (c : rune) :
    (i, c) ∈ rangeString s ↔ s[i]? = some c := by
  rw [rangeString_ascii s h, List.enum]
  have := @List.mk_add_mem_enumFrom_iff_getElem? _ 0 i c s
  simpa using this

/-- The index `range` yields is a byte index of the string, from the start index on. -/
theorem mem_rangeFrom_bounds (s : GoString) :
    ∀ (i k j : Nat) (c : rune), (j, c) ∈ rangeFrom i k s → i ≤ j ∧ j < i + s.length := by
  induction s with
  | nil => intro i k j c h; cases k <;> simp [rangeFrom] at h
  | cons b rest ih =>
    intro i k j c h
    cases k with
    | zero =>
      rw [rangeFrom, List.mem_cons] at h
      rcases h with h | h
      · cases h
        simp
      · have := ih _ _ _ _ h
        simp only [List.length_cons]
        omega
    | succ k =>
      rw [rangeFrom] at h
      have := ih _ _ _ _ h
      simp only [List.length_cons]
      omega

/-- The indices `range` yields increase strictly. -/
theorem rangeFrom_pairwise (s : GoString) :
    ∀ i k : Nat, (rangeFrom i k s).Pairwise (fun p q => p.1 < q.1) := by
  induction s with
  | nil => intro i k; cases k <;> simp [rangeFrom]
  | cons b rest ih =>
    intro i k
    cases k with
    | zero =>
      rw [rangeFrom, List.pairwise_cons]
      refine ⟨?_, ih _ _⟩
      intro q hq
      have := mem_rangeFrom_bounds rest _ _ q.1 q.2 hq
      simp only
      omega
    | succ k =>
      rw [rangeFrom]
      exact ih _ _

/-- The columns `Update` addresses are distinct: the indices `range` yields are distinct
and below the length of the string, a value of `int`. -/
theorem rangeString_wrap_pairwise (s : GoString) (x : Int) (hs : (s.length : Int) ≤ intMax) :
    (rangeString s).Pairwise
      (fun p q => wrap (x + (p.1 : Int)) ≠ wrap (x + (q.1 : Int))) := by
  refine List.Pairwise.imp_of_mem ?_ (rangeFrom_pairwise s 0 0)
  intro p q hp hq hlt
  have h1 := mem_rangeFrom_bounds s 0 0 p.1 p.2 hp
  have h2 := mem_rangeFrom_bounds s 0 0 q.1 q.2 hq
  simp only [intMax] at hs
  simp only [wrap]
  omega

/-! ## The cells `Update` writes -/

/-- The driver calls of `Update` with the driver initialized. -/
theorem Update_of_init (f : field) (s : GoString) :
    f.Update true s
      = ⟨{ f with text := s }, none,
          (rangeString s).map (fun ic => setCell (wrap (f.x + (ic.1 : Int))) f.y ic.2)
            ++ [tb.Call.Flush]⟩ := by
  simp [field.Update]

/-- No call of a sequence of text writes carries a content for a position that none of
them addresses. -/
theorem lastWrite_text_none (x y : Int) (l : List (Nat × rune)) (a b : Int)
    (h : ∀ ic ∈ l, ¬ (a = wrap (x + (ic.1 : Int)) ∧ b = y)) :
    tb.lastWrite (l.map (fun ic => setCell (wrap (x + (ic.1 : Int))) y ic.2)) a b = none := by
  rw [lastWrite_eq_none_iff]
  intro c hc
  obtain ⟨ic, hic, rfl⟩ := List.mem_map.mp hc
  intro hpos
  simp only [setCell, tb.Call.pos, Option.some.injEq, Prod.mk.injEq] at hpos
  exact h ic hic ⟨hpos.1.symm, hpos.2.symm⟩

/-- The last write of a sequence of text writes at distinct columns, at the column of
one of them, is its character. -/
theorem lastWrite_text_value (x y : Int) (l : List (Nat × rune)) :
    l.Pairwise (fun p q => wrap (x + (p.1 : Int)) ≠ wrap (x + (q.1 : Int))) →
    ∀ (i : Nat) (c : rune), (i, c) ∈ l →
      tb.lastWrite (l.map (fun ic => setCell (wrap (x + (ic.1 : Int))) y ic.2))
        (wrap (x + (i : Int))) y = some (cellOf c) := by
  induction l with
  | nil => intro _ i c h; cases h
  | cons p l ih =>
    intro hp i c h
    rw [List.pairwise_cons] at hp
    rw [List.map_cons, lastWrite_cons]
    rcases List.mem_cons.mp h with h | h
    · subst h
      rw [lastWrite_text_none x y l _ _ (fun ic hic hab => hp.1 ic hic hab.1), writes_setCell,
        if_pos ⟨rfl, rfl⟩]
    · rw [ih hp.2 i c h]

theorem lastWrite_Update (f : field) (s : GoString) (a b : Int) :
    tb.lastWrite (f.Update true s).calls a b
      = tb.lastWrite
          ((rangeString s).map (fun ic => setCell (wrap (f.x + (ic.1 : Int))) f.y ic.2))
          a b := by
  rw [Update_of_init, lastWrite_append]
  rfl

/-- `Update` changes no cell other than the ones it writes a character to. -/
theorem Update_frame (f : field) (g : tb.Grid) (s : GoString) (a b : Int)
    (h : ∀ (i : Nat) (c : rune), (i, c) ∈ rangeString s →
      ¬ (a = wrap (f.x + (i : Int)) ∧ b = f.y)) :
    g.run (f.Update true s).calls a b = g a b := by
  rw [run_cells, lastWrite_Update,
    lastWrite_text_none f.x f.y _ a b (fun ic hic => h ic.1 ic.2 hic)]
  split_ifs <;> rfl

/-- After `Update` the cell of every iteration of `range`, when it is inside the grid,
holds the character of that iteration. -/
theorem Update_value (f : field) (g : tb.Grid) (s : GoString)
    (hs : (s.length : Int) ≤ intMax) (i : Nat) (c : rune) (h : (i, c) ∈ rangeString s)
    (hin : g.inside (wrap (f.x + (i : Int))) f.y) :
    g.run (f.Update true s).calls (wrap (f.x + (i : Int))) f.y = cellOf c := by
  rw [run_cells, if_pos hin, lastWrite_Update,
    lastWrite_text_value f.x f.y _ (rangeString_wrap_pairwise s f.x hs) i c h]
  rfl

/-- After `Update` with an ASCII text, at a position where no column overflows and every
cell of the text is inside the grid, the text row shows the text. -/
theorem Update_showsText (f : field) (g : tb.Grid) (s : GoString) (h : isASCII s)
    (hs : (s.length : Int) ≤ intMax)
    (hx0 : intMin ≤ f.x) (hx1 : f.x + (s.length : Int) ≤ intMax + 1)
    (hin : ∀ i : Nat, i < s.length → g.inside (f.x + (i : Int)) f.y) :
    showsText (g.run (f.Update true s).calls) f.x f.y s := by
  intro i c hic
  have hi : i < s.length := (List.getElem?_eq_some_iff.mp hic).1
  have hw : wrap (f.x + (i : Int)) = f.x + (i : Int) :=
    wrap_of_int _ (by omega) (by omega)
  have := Update_value f g s hs i c ((mem_rangeString_ascii s h i c).mpr hic)
    (by rw [hw]; exact hin i hi)
  rwa [hw] at this

/-- The last write of `Update` at the column of an iteration of `range` is the character
of that iteration. -/
theorem lastWrite_Update_value (f : field) (s : GoString) (hs : (s.length : Int) ≤ intMax)
    (i : Nat) (c : rune) (h : (i, c) ∈ rangeString s) :
    tb.lastWrite (f.Update true s).calls (wrap (f.x + (i : Int))) f.y = some (cellOf c) := by
  rw [lastWrite_Update,
    lastWrite_text_value f.x f.y _ (rangeString_wrap_pairwise s f.x hs) i c h]

/-- C12: `Update` never clears, for every field, grid and pair of texts (the length of
the first a value of `int`, as that of every Go string). (1) `Update` changes no cell other
than the ones it writes a character of its argument to. (2) After `Update(s1)` and then
`Update(s2)`, for every position that `Update(s1)` wrote a character to and `Update(s2)`
did not write to, that character is the last one written there, and the cell of the grid
at that position still holds it. (3) In particular for ASCII texts with `s2` shorter than
`s1`, the cells (x+i, y) of the grid with len(s2) <= i < len(s1) still show the characters
of `s1`. The column x+i is the result of the `int` addition. -/
theorem Update_never_clears (f : field) (g : tb.Grid) (s1 s2 : GoString)
    (hs1 : (s1.length : Int) ≤ intMax) :
    (∀ a b : Int,
      (∀ (i : Nat) (c : rune), (i, c) ∈ rangeString s2 →
        ¬ (a = wrap (f.x + (i : Int)) ∧ b = f.y)) →
      g.run (f.Update true s2).calls a b = g a b) ∧
    (∀ (i : Nat) (c : rune), (i, c) ∈ rangeString s1 →
      (∀ (j : Nat) (d : rune), (j, d) ∈ rangeString s2 →
        wrap (f.x + (j : Int)) ≠ wrap (f.x + (i : Int))) →
      tb.lastWrite ((f.Update true s1).calls ++ ((f.Update true s1).f.Update true s2).calls)
        (wrap (f.x + (i : Int))) f.y = some (cellOf c) ∧
      (g.inside (wrap (f.x + (i : Int))) f.y →
        (g.run (f.Update true s1).calls).run ((f.Update true s1).f.Update true s2).calls
          (wrap (f.x + (i : Int))) f.y = cellOf c)) ∧
    (isASCII s1 → isASCII s2 →
      ∀ (i : Nat) (c : rune), s1[i]? = some c → s2.length ≤ i →
      g.inside (wrap (f.x + (i : Int))) f.y →
      (g.run (f.Update true s1).calls).run ((f.Update true s1).f.Update true s2).calls
        (wrap (f.x + (i : Int))) f.y = cellOf c) := by
  have second : ∀ (i : Nat) (c : rune), (i, c) ∈ rangeString s1 →
      (∀ (j : Nat) (d : rune), (j, d) ∈ rangeString s2 →
        wrap (f.x + (j : Int)) ≠ wrap (f.x + (i : Int))) →
      tb.lastWrite ((f.Update true s1).calls ++ ((f.Update true s1).f.Update true s2).calls)
        (wrap (f.x + (i : Int))) f.y = some (cellOf c) ∧
      (g.inside (wrap (f.x + (i : Int))) f.y →
        (g.run (f.Update true s1).calls).run ((f.Update true s1).f.Update true s2).calls
          (wrap (f.x + (i : Int))) f.y = cellOf c) := by
    intro i c hic hno
    have hf : (f.Update true s1).f = { f with text := s1 } := by rw [Update_of_init]
    have hnone : tb.lastWrite (({ f with text := s1 } : field).Update true s2).calls
        (wrap (f.x + (i : Int))) f.y = none := by
      rw [lastWrite_Update]
      exact lastWrite_text_none f.x f.y _ _ _ (fun ic hic2 hab => hno ic.1 ic.2 hic2 hab.1.symm)
    have hlw : tb.lastWrite
        ((f.Update true s1).calls ++ ((f.Update true s1).f.Update true s2).calls)
        (wrap (f.x + (i : Int))) f.y = some (cellOf c) := by
      rw [lastWrite_append, hf, hnone]
      exact lastWrite_Update_value f s1 hs1 i c hic
    refine ⟨hlw, fun hin => ?_⟩
    rw [← run_append, run_cells, if_pos hin, hlw]
    rfl
  refine ⟨fun a b h => Update_frame f g s2 a b h, second, ?_⟩
  intro h1 h2 i c hic hlen hin
  apply (second i c ((mem_rangeString_ascii s1 h1 i c).mpr hic) _).2 hin
  intro j d hjd
  have hj := mem_rangeFrom_bounds s2 0 0 j d hjd
  have hi : i < s1.length := (List.getElem?_eq_some_iff.mp hic).1
  simp only [intMax] at hs1
  simp only [wrap]
  omega

/-- C12 (witness): "hi" written over "hello" at x=10, y=5 on a blank screen leaves the
'o' of "hello" in the cell (14, 5). -/
theorem Update_never_clears_witness :
    (([104, 101, 108, 108, 111] : GoString).length : Int) ≤ intMax ∧
    isASCII [104, 101, 108, 108, 111] ∧ isASCII [104, 105] ∧
    wrap ((⟨10, 5, 4, boxStyleClear, []⟩ : field).x + ((4 : Nat) : Int)) = 14 ∧
    (blank.run ((⟨10, 5, 4, boxStyleClear, []⟩ : field).Update true
        [104, 101, 108, 108, 111]).calls).run
      (((⟨10, 5, 4, boxStyleClear, []⟩ : field).Update true
        [104, 101, 108, 108, 111]).f.Update true [104, 105]).calls
      (wrap ((⟨10, 5, 4, boxStyleClear, []⟩ : field).x + ((4 : Nat) : Int)))
      (⟨10, 5, 4, boxStyleClear, []⟩ : field).y = cellOf 111 :=
  ⟨by decide, by decide, by decide, by decide,
    (Update_never_clears ⟨10, 5, 4, boxStyleClear, []⟩ blank [104, 101, 108, 108, 111]
      [104, 105] (by decide)).2.2 (by decide) (by decide) 4 111 (by decide) (by decide)
      (by decide)⟩

/-! ## Effects on the field -/

/-- C13: when `DrawBox(style)` succeeds (returns no error) the stored border is `style`
and x, y, length and cached text are unchanged; when `Update(text)` succeeds the cached
text is `text` and x, y, length and border are unchanged. With the driver initialized
`Update` always succeeds and `DrawBox` succeeds for the four registered styles. -/
theorem success_effects (f : field) (IsInit : Bool) (style : boxStyle) (text : GoString) :
    ((f.DrawBox IsInit style).err = none →
      (f.DrawBox IsInit style).f = { f with border := style }) ∧
    ((f.Update IsInit text).err = none →
      (f.Update IsInit text).f = { f with text := text }) ∧
    (f.Update true text).err = none ∧
    ((boxRunesMap.lookup style).isSome = true → (f.DrawBox true style).err = none) := by
  refine ⟨?_, ?_, by rw [Update_of_init], ?_⟩
  · cases IsInit with
    | false => rw [DrawBox_not_init]; intro h; cases h
    | true =>
      cases hs : boxRunesMap.lookup style with
      | none => rw [DrawBox_of_none f style hs]; intro h; cases h
      | some r => rw [DrawBox_of_some f style r hs]; intro _; rfl
  · cases IsInit with
    | false => rw [Update_not_init]; intro h; cases h
    | true => rw [Update_of_init]; intro _; rfl
  · intro h
    obtain ⟨r, hr⟩ := Option.isSome_iff_exists.mp h
    rw [DrawBox_of_some f style r hr]

/-- C13 (witness): the field at x=10, y=5 of length 4 with text "hi": a successful
`DrawBox(ASCII)` and a successful `Update("a")`. -/
theorem success_effects_witness :
    ((⟨10, 5, 4, boxStyleClear, [104, 105]⟩ : field).DrawBox true BoxStyleASCII).err = none ∧
    ((⟨10, 5, 4, boxStyleClear, [104, 105]⟩ : field).DrawBox true BoxStyleASCII).f
      = ⟨10, 5, 4, BoxStyleASCII, [104, 105]⟩ ∧
    ((⟨10, 5, 4, boxStyleClear, [104, 105]⟩ : field).Update true [97]).err = none ∧
    ((⟨10, 5, 4, boxStyleClear, [104, 105]⟩ : field).Update true [97]).f
      = ⟨10, 5, 4, boxStyleClear, [97]⟩ :=
  ⟨by decide,
    (success_effects ⟨10, 5, 4, boxStyleClear, [104, 105]⟩ true BoxStyleASCII [97]).1
      (by decide),
    by decide,
    (success_effects ⟨10, 5, 4, boxStyleClear, [104, 105]⟩ true BoxStyleASCII [97]).2.1
      (by decide)⟩

/-! ## The style registry -/

/-- The glyph lists of the four registered styles. -/
theorem lookup_cases (style : boxStyle) (r : List rune)
    (h : boxRunesMap.lookup style = some r) :
    r = [32, 32, 32, 32, 32, 32] ∨ r = [0, 0, 0, 0, 0, 0] ∨ r = [43, 43, 43, 43, 45, 124]
      ∨ r = [0x250c, 0x2510, 0x2514, 0x2518, 0x2500, 0x2502] := by
  have hs := (lookup_isSome_iff style).mp (by rw [h]; rfl)
  rcases hs with hs | hs | hs | hs <;> subst hs
  · have h2 : boxRunesMap.lookup boxStyleClear = some [32, 32, 32, 32, 32, 32] := by decide
    rw [h2] at h; cases h; simp
  · have h2 : boxRunesMap.lookup BoxStyleNone = some [0, 0, 0, 0, 0, 0] := by decide
    rw [h2] at h; cases h; simp
  · have h2 : boxRunesMap.lookup BoxStyleASCII = some [43, 43, 43, 43, 45, 124] := by decide
    rw [h2] at h; cases h; simp
  · have h2 : boxRunesMap.lookup BoxStyleUnicode
        = some [0x250c, 0x2510, 0x2514, 0x2518, 0x2500, 0x2502] := by decide
    rw [h2] at h; cases h; simp

/-- C14: every entry of the style registry holds exactly six glyphs; Clear maps to six
spaces and ASCII to '+', '+', '+', '+', '-', '|'; and for every style that passes the
registry lookup of `DrawBox` the glyph list has length six, so each index 0..5 is in
range and the glyph `DrawBox` takes there is the entry of the list. -/
theorem boxRunes_six_glyphs :
    (∀ p ∈ boxRunesMap, p.2.length = 6) ∧
    boxRunesMap.lookup boxStyleClear = some [32, 32, 32, 32, 32, 32] ∧
    boxRunesMap.lookup BoxStyleASCII = some [43, 43, 43, 43, 45, 124] ∧
    (∀ (style : boxStyle) (r : List rune), boxRunesMap.lookup style = some r →
      r.length = 6 ∧ ∀ k : Nat, k ≤ 5 → k < r.length ∧ r[k]? = some (r.getD k 0)) := by
  refine ⟨by decide, by decide, by decide, ?_⟩
  intro style r h
  rcases lookup_cases style r h with hr | hr | hr | hr <;> subst hr <;>
    refine ⟨rfl, fun k hk => ?_⟩ <;> interval_cases k <;> exact ⟨by decide, rfl⟩

/-- C14 (witness): the Unicode style passes the lookup; its list has six glyphs and the
index 5 holds the vertical bar U+2502. -/
theorem boxRunes_six_glyphs_witness :
    boxRunesMap.lookup BoxStyleUnicode
        = some [0x250c, 0x2510, 0x2514, 0x2518, 0x2500, 0x2502] ∧
    ([0x250c, 0x2510, 0x2514, 0x2518, 0x2500, 0x2502] : List rune).length = 6 ∧
    ([0x250c, 0x2510, 0x2514, 0x2518, 0x2500, 0x2502] : List rune)[5]? = some 0x2502 :=
  ⟨by decide,
    (boxRunes_six_glyphs.2.2.2 BoxStyleUnicode _ (by decide)).1,
    ((boxRunes_six_glyphs.2.2.2 BoxStyleUnicode _ (by decide)).2 5 (by decide)).2⟩

/-! ## Move with the driver not initialized -/

/-- C15: with the driver not initialized, `Move(dir)` (a total function that returns no
error) issues no driver call at all, for every direction value: the inner
`DrawBox(Clear)`, the inner `DrawBox(border)` and the inner `Update(text)` each fail with
"Term not Initialized", and `Move` drops these errors. -/
theorem Move_not_initialized (f : field) (dir : moveDir) :
    (f.Move false dir).2 = [] ∧
    (f.DrawBox false boxStyleClear).err = some errNotInitialized ∧
    (∀ f2 : field, (f2.DrawBox false f.border).err = some errNotInitialized ∧
      (f2.DrawBox false f.border).calls = []) ∧
    (∀ f3 : field, (f3.Update false f3.text).err = some errNotInitialized ∧
      (f3.Update false f3.text).calls = []) := by
  refine ⟨?_, by rw [DrawBox_not_init], fun f2 => by rw [DrawBox_not_init]; exact ⟨rfl, rfl⟩,
    fun f3 => by rw [Update_not_init]; exact ⟨rfl, rfl⟩⟩
  simp only [field.Move, DrawBox_not_init, Update_not_init, List.append_nil]

/-! ## The border of a reachable field -/

/-- C17: in every state reachable from a field returned by `NewField` through `DrawBox`
(any style value), `Update` and `Move` calls, with the driver initialized or not at each
call, the stored border is a style of the registry, that is one of the four constants. -/
theorem border_registered (f : field) (h : Reachable f) :
    (boxRunesMap.lookup f.border).isSome = true ∧
    (f.border = boxStyleClear ∨ f.border = BoxStyleNone ∨ f.border = BoxStyleASCII
      ∨ f.border = BoxStyleUnicode) :=
  ⟨reachable_border f h, (lookup_isSome_iff f.border).mp (reachable_border f h)⟩

/-- C17 (witness): the field created at y=5, x=10 with length 4 and text "hi", after
`DrawBox(7)` (an unknown style), `DrawBox(Unicode)`, `Move(Up)` with the driver not
initialized and `Update("a")`. -/
theorem border_registered_witness :
    Reachable ⟨10, 4, 4, BoxStyleUnicode, [97]⟩ ∧
    (boxRunesMap.lookup (⟨10, 4, 4, BoxStyleUnicode, [97]⟩ : field).border).isSome = true :=
  ⟨Reachable.update ⟨10, 4, 4, BoxStyleUnicode, [104, 105]⟩ true [97]
      (Reachable.move ⟨10, 5, 4, BoxStyleUnicode, [104, 105]⟩ false FieldMoveUp
        (Reachable.drawBox ⟨10, 5, 4, boxStyleClear, [104, 105]⟩ true BoxStyleUnicode
          (Reachable.drawBox ⟨10, 5, 4, boxStyleClear, [104, 105]⟩ true 7
            (Reachable.new true 5 10 4 [104, 105] ⟨⟨10, 5, 4, boxStyleClear, [104, 105]⟩⟩
              (by decide))))),
    (border_registered ⟨10, 4, 4, BoxStyleUnicode, [97]⟩
      (Reachable.update ⟨10, 4, 4, BoxStyleUnicode, [104, 105]⟩ true [97]
        (Reachable.move ⟨10, 5, 4, BoxStyleUnicode, [104, 105]⟩ false FieldMoveUp
          (Reachable.drawBox ⟨10, 5, 4, boxStyleClear, [104, 105]⟩ true BoxStyleUnicode
            (Reachable.drawBox ⟨10, 5, 4, boxStyleClear, [104, 105]⟩ true 7
              (Reachable.new true 5 10 4 [104, 105] ⟨⟨10, 5, 4, boxStyleClear, [104, 105]⟩⟩
                (by decide))))))).1⟩

/-! ## The driver calls of `Move` -/

/-- The driver calls of `Move(Right)` with the driver initialized: the border is cleared
at the old position, drawn at the new one, and the text is written at the new one. -/
theorem Move_right_calls (f : field) :
    (f.Move true FieldMoveRight).2
      = (f.DrawBox true boxStyleClear).calls
        ++ (({ f with x := wrap (f.x + 1), border := boxStyleClear } : field).DrawBox true
            f.border).calls
        ++ (({ f with x := wrap (f.x + 1) } : field).Update true f.text).calls := by
  have hc : boxRunesMap.lookup boxStyleClear = some [32, 32, 32, 32, 32, 32] := by decide
  have hf : (f.DrawBox true boxStyleClear).f = { f with border := boxStyleClear } := by
    rw [DrawBox_of_some f _ _ hc]
  rcases DrawBox_f_eq { f with x := wrap (f.x + 1), border := boxStyleClear } true f.border
    with h | h <;>
  simp [field.Move, hf, h, Update_of_init, FieldMoveRight, FieldMoveLeft]

/-- The driver calls of `Move(Left)` with the driver initialized. -/
theorem Move_left_calls (f : field) :
    (f.Move true FieldMoveLeft).2
      = (f.DrawBox true boxStyleClear).calls
        ++ (({ f with x := wrap (f.x - 1), border := boxStyleClear } : field).DrawBox true
            f.border).calls
        ++ (({ f with x := wrap (f.x - 1) } : field).Update true f.text).calls := by
  have hc : boxRunesMap.lookup boxStyleClear = some [32, 32, 32, 32, 32, 32] := by decide
  have hf : (f.DrawBox true boxStyleClear).f = { f with border := boxStyleClear } := by
    rw [DrawBox_of_some f _ _ hc]
  rcases DrawBox_f_eq { f with x := wrap (f.x - 1), border := boxStyleClear } true f.border
    with h | h <;>
  simp [field.Move, hf, h, Update_of_init, FieldMoveLeft]

/-! ## Move(Right) with an ASCII border -/

/-- The cell grid after `DrawBox` with a style whose six glyphs are all `ch`, on a field
without overflow. -/
theorem DrawBox_cell_uniform (f : field) (s : boxStyle) (ch : rune)
    (h : boxRunesMap.lookup s = some [ch, ch, ch, ch, ch, ch]) (hlen : 0 ≤ f.len)
    (hno : f.noOverflow) (g : tb.Grid) (a b : Int) :
    g.run (f.DrawBox true s).calls a b
      = if g.inside a b ∧ f.onBorder a b then cellOf ch else g a b := by
  rw [DrawBox_cell f s _ h hlen hno]
  unfold field.onBorder
  simp only [List.getD_cons_zero, List.getD_cons_succ]
  by_cases hin : g.inside a b
  · simp only [hin, if_true, true_and]
    split_ifs <;> first | rfl | (exfalso; omega)
  · simp only [hin, if_false, false_and]

/-- After `Move(Right)`, at a position where neither move nor text overflow, a cell that
the text at the new position does not cover holds what the two `DrawBox` calls left
there. -/
theorem Move_right_off_text (f : field) (g : tb.Grid) (a b : Int)
    (hx0 : intMin ≤ f.x + 1) (hx1 : f.x + 1 + (f.text.length : Int) ≤ intMax + 1)
    (h : ¬ (b = f.y ∧ f.x + 1 ≤ a ∧ a < f.x + 1 + (f.text.length : Int))) :
    g.run (f.Move true FieldMoveRight).2 a b
      = (g.run (f.DrawBox true boxStyleClear).calls).run
          (({ f with x := wrap (f.x + 1), border := boxStyleClear } : field).DrawBox true
            f.border).calls a b := by
  rw [Move_right_calls, run_append, run_append]
  apply Update_frame
  intro i c hic hab
  have hi := mem_rangeFrom_bounds f.text 0 0 i c hic
  simp only [intMin, intMax] at hx0 hx1
  simp only [wrap] at hab
  omega

/-- C11 (as amended): for every field with length >= 0 whose stored border is ASCII (as
a successful `DrawBox(ASCII)` leaves it) and whose cached text is ASCII with at most
`length` characters, when no `int` operation overflows at the old position and at the
position one column to the right, and for every grid: after `Move(Right)` with the driver
initialized each cell inside the grid at a `DrawBox` position of (x+1, y) holds its glyph
of the ASCII border ('+' in the four corners, '|' in the two side cells, '-' on the two
edges), and every cell inside the grid of the old border that is no position of the new
border holds a space. -/
theorem Move_right_ASCII (f : field) (g : tb.Grid) (hlen : 0 ≤ f.len)
    (hno : f.noOverflow) (hno2 : ({ f with x := f.x + 1 } : field).noOverflow)
    (hborder : f.border = BoxStyleASCII) (hascii : isASCII f.text)
    (hfit : ((runes f.text).length : Int) ≤ f.len) :
    (g.inside (f.x + 1 - 1) (f.y - 1) →
      g.run (f.Move true FieldMoveRight).2 (f.x + 1 - 1) (f.y - 1) = cellOf 43) ∧
    (g.inside (f.x + 1 + f.len + 1) (f.y - 1) →
      g.run (f.Move true FieldMoveRight).2 (f.x + 1 + f.len + 1) (f.y - 1) = cellOf 43) ∧
    (g.inside (f.x + 1 - 1) (f.y + 1) →
      g.run (f.Move true FieldMoveRight).2 (f.x + 1 - 1) (f.y + 1) = cellOf 43) ∧
    (g.inside (f.x + 1 + f.len + 1) (f.y + 1) →
      g.run (f.Move true FieldMoveRight).2 (f.x + 1 + f.len + 1) (f.y + 1) = cellOf 43) ∧
    (g.inside (f.x + 1 - 1) f.y →
      g.run (f.Move true FieldMoveRight).2 (f.x + 1 - 1) f.y = cellOf 124) ∧
    (g.inside (f.x + 1 + f.len + 1) f.y →
      g.run (f.Move true FieldMoveRight).2 (f.x + 1 + f.len + 1) f.y = cellOf 124) ∧
    (∀ i : Int, 0 ≤ i → i ≤ f.len →
      (g.inside (f.x + 1 + i) (f.y - 1) →
        g.run (f.Move true FieldMoveRight).2 (f.x + 1 + i) (f.y - 1) = cellOf 45) ∧
      (g.inside (f.x + 1 + i) (f.y + 1) →
        g.run (f.Move true FieldMoveRight).2 (f.x + 1 + i) (f.y + 1) = cellOf 45)) ∧
    (∀ a b : Int, f.onBorder a b → ¬ ({ f with x := f.x + 1 } : field).onBorder a b →
      g.inside a b → g.run (f.Move true FieldMoveRight).2 a b = cellOf 32) := by
  rw [runes_ascii f.text hascii] at hfit
  have hA : boxRunesMap.lookup BoxStyleASCII = some [43, 43, 43, 43, 45, 124] := by decide
  have hc : boxRunesMap.lookup boxStyleClear = some [32, 32, 32, 32, 32, 32] := by decide
  have hw : wrap (f.x + 1) = f.x + 1 := by
    simp only [field.noOverflow, intMin, intMax] at hno hno2
    simp only [wrap]
    omega
  have hno3 : ({ f with x := f.x + 1, border := boxStyleClear } : field).noOverflow := hno2
  have hx0 : intMin ≤ f.x + 1 := by
    simp only [field.noOverflow, intMin, intMax] at hno ⊢
    omega
  have hx1 : f.x + 1 + (f.text.length : Int) ≤ intMax + 1 := by
    simp only [field.noOverflow, intMin, intMax] at hno2 ⊢
    omega
  have key : ∀ a b : Int,
      ¬ (b = f.y ∧ f.x + 1 ≤ a ∧ a < f.x + 1 + (f.text.length : Int)) →
      g.run (f.Move true FieldMoveRight).2 a b
        = (g.run (f.DrawBox true boxStyleClear).calls).run
            (({ f with x := f.x + 1, border := boxStyleClear } : field).DrawBox true
              BoxStyleASCII).calls a b := by
    intro a b hab
    rw [Move_right_off_text f g a b hx0 hx1 hab, hw, hborder]
  have ht := DrawBox_top_corners { f with x := f.x + 1, border := boxStyleClear }
    BoxStyleASCII _ (g.run (f.DrawBox true boxStyleClear).calls) hlen hno3 hA
  have hb := DrawBox_bottom_corners { f with x := f.x + 1, border := boxStyleClear }
    BoxStyleASCII _ (g.run (f.DrawBox true boxStyleClear).calls) hlen hno3 hA
  have hs := DrawBox_sides { f with x := f.x + 1, border := boxStyleClear }
    BoxStyleASCII _ (g.run (f.DrawBox true boxStyleClear).calls) hlen hno3 hA
  refine ⟨?_, ?_, ?_, ?_, ?_, ?_, ?_, ?_⟩
  · intro hin; rw [key _ _ (by omega)]; exact ht.1 ((run_inside g _ _ _).mpr hin)
  · intro hin; rw [key _ _ (by omega)]; exact ht.2 ((run_inside g _ _ _).mpr hin)
  · intro hin; rw [key _ _ (by omega)]; exact hb.1 ((run_inside g _ _ _).mpr hin)
  · intro hin; rw [key _ _ (by omega)]; exact hb.2 ((run_inside g _ _ _).mpr hin)
  · intro hin; rw [key _ _ (by omega)]; exact hs.1 ((run_inside g _ _ _).mpr hin)
  · intro hin; rw [key _ _ (by omega)]; exact hs.2 ((run_inside g _ _ _).mpr hin)
  · intro i h0 h1
    have he := DrawBox_edges { f with x := f.x + 1, border := boxStyleClear }
      BoxStyleASCII _ (g.run (f.DrawBox true boxStyleClear).calls) hlen hno3 hA i h0 h1
    constructor
    · intro hin; rw [key _ _ (by omega)]; exact he.1 ((run_inside g _ _ _).mpr hin)
    · intro hin; rw [key _ _ (by omega)]; exact he.2 ((run_inside g _ _ _).mpr hin)
  · intro a b hold hnew hin
    have hoff : ¬ (b = f.y ∧ f.x + 1 ≤ a ∧ a < f.x + 1 + (f.text.length : Int)) := by
      unfold field.onBorder at hold
      omega
    rw [key a b hoff,
      DrawBox_frame { f with x := f.x + 1, border := boxStyleClear } BoxStyleASCII hlen hno3
        _ a b hnew,
      DrawBox_cell_uniform f _ 32 hc hlen hno, if_pos ⟨hin, hold⟩]

/-- C11 (witness): the spec case x=10, y=5, length=4 with the text "hi" and the ASCII
border drawn on a blank screen: after `Move(Right)` the old corner cell (9, 4) holds a
space. -/
theorem Move_right_ASCII_witness :
    (0 : Int) ≤ (⟨10, 5, 4, BoxStyleASCII, [104, 105]⟩ : field).len ∧
    (⟨10, 5, 4, BoxStyleASCII, [104, 105]⟩ : field).noOverflow ∧
    isASCII (⟨10, 5, 4, BoxStyleASCII, [104, 105]⟩ : field).text ∧
    ((runes (⟨10, 5, 4, BoxStyleASCII, [104, 105]⟩ : field).text).length : Int) ≤ 4 ∧
    (blank.run ((⟨10, 5, 4, boxStyleClear, [104, 105]⟩ : field).DrawBox true
        BoxStyleASCII).calls).run
      ((⟨10, 5, 4, BoxStyleASCII, [104, 105]⟩ : field).Move true FieldMoveRight).2 9 4
      = cellOf 32 :=
  ⟨by decide, by decide, by decide, by decide,
    (Move_right_ASCII ⟨10, 5, 4, BoxStyleASCII, [104, 105]⟩
      (blank.run ((⟨10, 5, 4, boxStyleClear, [104, 105]⟩ : field).DrawBox true
        BoxStyleASCII).calls)
      (by decide) (by decide) (by decide) rfl (by decide) (by decide)).2.2.2.2.2.2.2 9 4
      (by decide) (by decide) (by decide)⟩

/-- C11 (counterexample): the field `NewField(5, 0, MaxInt, "")` returns, with the ASCII
border drawn on a blank screen, has length MaxInt >= 0 and an empty text. After
`Move(Right)` the cell (x+1+0, y-1) = (1, 4), a position of the top edge of the new
border inside the grid, does not hold '-': the loop bound `len+1` overflows and no edge
is written. -/
theorem Move_right_ASCII_fails :
    (NewField true 5 0 intMax []).fld = some ⟨⟨0, 5, intMax, boxStyleClear, []⟩⟩ ∧
    ((⟨0, 5, intMax, boxStyleClear, []⟩ : field).DrawBox true BoxStyleASCII).f
      = ⟨0, 5, intMax, BoxStyleASCII, []⟩ ∧
    (0 : Int) ≤ (⟨0, 5, intMax, BoxStyleASCII, []⟩ : field).len ∧
    ((runes (⟨0, 5, intMax, BoxStyleASCII, []⟩ : field).text).length : Int) ≤ intMax ∧
    blank.inside 1 4 ∧
    (blank.run ((⟨0, 5, intMax, boxStyleClear, []⟩ : field).DrawBox true
        BoxStyleASCII).calls).run
      ((⟨0, 5, intMax, BoxStyleASCII, []⟩ : field).Move true FieldMoveRight).2
      ((⟨0, 5, intMax, BoxStyleASCII, []⟩ : field).x + 1 + 0)
      ((⟨0, 5, intMax, BoxStyleASCII, []⟩ : field).y - 1) ≠ cellOf 45 := by
  decide

/-! ## Move(Left) and the text at the old position -/

/-- A blank screen stays blank under calls that write spaces only. -/
theorem run_blank_spaces (cs : List tb.Call) (h : cs.all writesSpace = true) :
    blank.run cs = blank := by
  induction cs with
  | nil => rfl
  | cons c cs ih =>
    rw [List.all_cons, Bool.and_eq_true] at h
    rw [run_cons]
    have hstep : blank.step c = blank := by
      cases c with
      | Flush => rfl
      | SetCell x y ch fg bg =>
        simp only [writesSpace, Bool.and_eq_true, beq_iff_eq] at h
        obtain ⟨⟨⟨h1, h2⟩, h3⟩, -⟩ := h
        subst h1 h2 h3
        apply grid_ext
        · exact step_width _ _
        · exact step_height _ _
        · intro a b
          rw [step_cells]
          simp only [tb.Call.writes, blank]
          split_ifs <;> rfl
    rw [hstep]
    exact ih h.2

/-- The grid of a fresh field, from the driver calls of `Update` and `DrawBox`. -/
theorem freshGrid_eq (y x len : Int) (text : GoString) (style : boxStyle) :
    freshGrid y x len text style
      = (blank.run ((⟨x, y, len, 0, []⟩ : field).Update true text).calls).run
          ((⟨x, y, len, 0, text⟩ : field).DrawBox true style).calls := by
  rw [freshGrid, NewField_of_init, Update_of_init]
  simp only [run_append]

/-- No call of `DrawBox` addresses a position of the text row other than its two side
columns. -/
theorem DrawBox_pos_ne (f : field) (s : boxStyle) (t : Int)
    (h1 : wrap (f.x - 1) ≠ t) (h2 : wrap (wrap (f.x + f.len) + 1) ≠ t) :
    ∀ c ∈ (f.DrawBox true s).calls, c.pos ≠ some (t, f.y) := by
  intro c hc hpos
  cases hs : boxRunesMap.lookup s with
  | none => rw [DrawBox_of_none f s hs] at hc; cases hc
  | some r =>
    rcases mem_DrawBox f s r hs c hc with hf | ⟨a, b, k, -, hcall, hwhere⟩
    · rw [hf] at hpos; cases hpos
    · rw [hcall] at hpos
      simp only [setCell, tb.Call.pos, Option.some.injEq, Prod.mk.injEq] at hpos
      obtain ⟨rfl, rfl⟩ := hpos
      rcases hwhere with ⟨ha | ha, -⟩ | hb | hb
      · exact h1 ha.symm
      · exact h2 ha.symm
      · simp only [wrap] at hb; omega
      · simp only [wrap] at hb; omega

/-- No call of `Update` addresses a position of the text row whose column is none of the
columns of the text. -/
theorem Update_pos_ne (f : field) (s : GoString) (t : Int)
    (h : ∀ i : Nat, i < s.length → wrap (f.x + (i : Int)) ≠ t) :
    ∀ c ∈ (f.Update true s).calls, c.pos ≠ some (t, f.y) := by
  intro c hc hpos
  rw [Update_of_init] at hc
  simp only [List.mem_append, List.mem_map, List.mem_singleton] at hc
  rcases hc with ⟨ic, hic, rfl⟩ | rfl
  · simp only [setCell, tb.Call.pos, Option.some.injEq, Prod.mk.injEq] at hpos
    have hi := mem_rangeFrom_bounds s 0 0 ic.1 ic.2 hic
    exact h ic.1 (by omega) hpos.1
  · cases hpos

/-- After `Move(Left)` of a field whose text has n >= 1 bytes and fits the length, the
cell (x+n-1, y) holds what it held before. -/
theorem Move_left_last_cell (f : field) (g : tb.Grid) (hn : 1 ≤ f.text.length)
    (hfit : (f.text.length : Int) ≤ f.len) (hlen : f.len ≤ intMax) :
    g.run (f.Move true FieldMoveLeft).2 (f.x + (f.text.length : Int) - 1) f.y
      = g (f.x + (f.text.length : Int) - 1) f.y := by
  simp only [intMax] at hlen
  apply run_frame
  intro c hc
  rw [Move_left_calls] at hc
  simp only [List.mem_append] at hc
  rcases hc with (hc | hc) | hc
  · exact DrawBox_pos_ne f _ _ (by simp only [wrap]; omega) (by simp only [wrap]; omega) c hc
  · exact DrawBox_pos_ne { f with x := wrap (f.x - 1), border := boxStyleClear } _ _
      (by simp only [wrap]; omega) (by simp only [wrap]; omega) c hc
  · exact Update_pos_ne { f with x := wrap (f.x - 1) } _ _
      (by intro i hi; simp only [wrap]; omega) c hc

/-- The grid of a fresh field at (x-1, y) on a blank screen holds a space in the cell
(x+n-1, y), for a text of n >= 1 bytes that fits the length. -/
theorem freshGrid_last_cell (f : field) (style : boxStyle) (hn : 1 ≤ f.text.length)
    (hfit : (f.text.length : Int) ≤ f.len) (hlen : f.len ≤ intMax) :
    freshGrid f.y (f.x - 1) f.len f.text style (f.x + (f.text.length : Int) - 1) f.y
      = cellOf 32 := by
  simp only [intMax] at hlen
  rw [freshGrid_eq, ← run_append]
  have : (blank.run (((⟨f.x - 1, f.y, f.len, 0, []⟩ : field).Update true f.text).calls
      ++ ((⟨f.x - 1, f.y, f.len, 0, f.text⟩ : field).DrawBox true style).calls)).cells
      (f.x + (f.text.length : Int) - 1) f.y
      = blank.cells (f.x + (f.text.length : Int) - 1) f.y := by
    apply run_frame
    intro c hc
    simp only [List.mem_append] at hc
    rcases hc with hc | hc
    · exact Update_pos_ne ⟨f.x - 1, f.y, f.len, 0, []⟩ _ _
        (by intro i hi; simp only [wrap]; omega) c hc
    · exact DrawBox_pos_ne ⟨f.x - 1, f.y, f.len, 0, f.text⟩ _ _
        (by simp only [wrap]; omega) (by simp only [wrap]; omega) c hc
  rw [this]
  rfl

/-- C16 (as amended): for a field (with a length that is a value of `int`) whose cached
text is ASCII with n characters, 1 <= n <= length, and a grid whose text row shows that
text, after `Move(Left)` with the driver initialized the cell (x+n-1, y) still holds the
last character of the text; and when that character is not a space, the grid differs
from the grid of a fresh field at (x-1, y) on a blank screen, whatever style is drawn
around the fresh field. -/
theorem Move_left_keeps_last (f : field) (g : tb.Grid) (n : Nat) (c : rune)
    (hlen : f.len ≤ intMax)
    (hascii : isASCII f.text) (hn : (runes f.text).length = n) (h1 : 1 ≤ n)
    (hfit : (n : Int) ≤ f.len) (hshow : showsText g f.x f.y f.text)
    (hlast : (runes f.text)[n - 1]? = some c) :
    g.run (f.Move true FieldMoveLeft).2 (f.x + (n : Int) - 1) f.y = cellOf c ∧
    (c ≠ 32 → ∀ style : boxStyle,
      g.run (f.Move true FieldMoveLeft).2 ≠ freshGrid f.y (f.x - 1) f.len f.text style) := by
  rw [runes_ascii f.text hascii] at hn hlast
  subst hn
  have hcast : f.x + (f.text.length : Int) - 1 = f.x + ((f.text.length - 1 : Nat) : Int) := by
    omega
  have hcell : g.run (f.Move true FieldMoveLeft).2 (f.x + (f.text.length : Int) - 1) f.y
      = cellOf c := by
    rw [Move_left_last_cell f g h1 hfit hlen, hcast]
    exact hshow (f.text.length - 1) c hlast
  refine ⟨hcell, ?_⟩
  intro hc style heq
  rw [heq, freshGrid_last_cell f style h1 hfit hlen] at hcell
  have := congrArg tb.Cell.Ch hcell
  exact hc this.symm

/-- C16 (witness): the field at x=10, y=5 of length 4 with the text "hi" shown on a
blank screen: after `Move(Left)` the cell (11, 5) still holds 'i', and the grid is not
the one of a fresh field at (9, 5). -/
theorem Move_left_keeps_last_witness :
    isASCII [104, 105] ∧
    showsText (blank.run ((⟨10, 5, 4, boxStyleClear, []⟩ : field).Update true
      [104, 105]).calls) 10 5 [104, 105] ∧
    (blank.run ((⟨10, 5, 4, boxStyleClear, []⟩ : field).Update true [104, 105]).calls).run
      ((⟨10, 5, 4, boxStyleClear, [104, 105]⟩ : field).Move true FieldMoveLeft).2
      ((⟨10, 5, 4, boxStyleClear, [104, 105]⟩ : field).x + ((2 : Nat) : Int) - 1)
      (⟨10, 5, 4, boxStyleClear, [104, 105]⟩ : field).y = cellOf 105 ∧
    (blank.run ((⟨10, 5, 4, boxStyleClear, []⟩ : field).Update true [104, 105]).calls).run
      ((⟨10, 5, 4, boxStyleClear, [104, 105]⟩ : field).Move true FieldMoveLeft).2
      ≠ freshGrid (⟨10, 5, 4, boxStyleClear, [104, 105]⟩ : field).y
          ((⟨10, 5, 4, boxStyleClear, [104, 105]⟩ : field).x - 1)
          (⟨10, 5, 4, boxStyleClear, [104, 105]⟩ : field).len
          (⟨10, 5, 4, boxStyleClear, [104, 105]⟩ : field).text boxStyleClear :=
  ⟨by decide,
    Update_showsText ⟨10, 5, 4, boxStyleClear, []⟩ blank [104, 105] (by decide) (by decide)
      (by decide) (by decide) (by decide),
    (Move_left_keeps_last ⟨10, 5, 4, boxStyleClear, [104, 105]⟩
      (blank.run ((⟨10, 5, 4, boxStyleClear, []⟩ : field).Update true [104, 105]).calls)
      2 105 (by decide) (by decide) (by decide) (by decide) (by decide)
      (Update_showsText ⟨10, 5, 4, boxStyleClear, []⟩ blank [104, 105] (by decide)
        (by decide) (by decide) (by decide) (by decide))
      (by decide)).1,
    (Move_left_keeps_last ⟨10, 5, 4, boxStyleClear, [104, 105]⟩
      (blank.run ((⟨10, 5, 4, boxStyleClear, []⟩ : field).Update true [104, 105]).calls)
      2 105 (by decide) (by decide) (by decide) (by decide) (by decide)
      (Update_showsText ⟨10, 5, 4, boxStyleClear, []⟩ blank [104, 105] (by decide)
        (by decide) (by decide) (by decide) (by decide))
      (by decide)).2 (by decide) boxStyleClear⟩

/-- C16 (counterexample): the field created at y=5, x=10 with length 1 and the text " "
(one space), shown on a blank screen. After `Move(Left)` the cell (10, 5) holds the last
character of the text, the space, and the grid equals the grid of the fresh field at
(9, 5) on a blank screen, with or without its border drawn. -/
theorem Move_left_space_same_grid :
    (NewField true 5 10 1 [32]).fld = some ⟨⟨10, 5, 1, boxStyleClear, [32]⟩⟩ ∧
    isASCII [32] ∧ (runes [32]).length = 1 ∧
    showsText (blank.run (NewField true 5 10 1 [32]).calls) 10 5 [32] ∧
    (blank.run (NewField true 5 10 1 [32]).calls).run
      ((⟨10, 5, 1, boxStyleClear, [32]⟩ : field).Move true FieldMoveLeft).2 10 5
      = cellOf 32 ∧
    (blank.run (NewField true 5 10 1 [32]).calls).run
      ((⟨10, 5, 1, boxStyleClear, [32]⟩ : field).Move true FieldMoveLeft).2
      = freshGrid 5 9 1 [32] boxStyleClear ∧
    (blank.run (NewField true 5 10 1 [32]).calls).run
      ((⟨10, 5, 1, boxStyleClear, [32]⟩ : field).Move true FieldMoveLeft).2
      = blank.run (NewField true 5 9 1 [32]).calls := by
  have hmoved : (blank.run (NewField true 5 10 1 [32]).calls).run
      ((⟨10, 5, 1, boxStyleClear, [32]⟩ : field).Move true FieldMoveLeft).2 = blank := by
    rw [← run_append]
    exact run_blank_spaces _ (by decide)
  have hfresh : freshGrid 5 9 1 [32] boxStyleClear = blank :=
    run_blank_spaces ((NewField true 5 9 1 [32]).calls
      ++ ((⟨9, 5, 1, boxStyleClear, [32]⟩ : field).DrawBox true boxStyleClear).calls)
      (by decide)
  have hnew : blank.run (NewField true 5 9 1 [32]).calls = blank :=
    run_blank_spaces _ (by decide)
  refine ⟨by decide, by decide, by decide, ?_, ?_, ?_, ?_⟩
  · exact Update_showsText ⟨10, 5, 1, boxStyleClear, []⟩ blank [32] (by decide) (by decide)
      (by decide) (by decide) (by decide)
  · rw [hmoved]; rfl
  · rw [hmoved, hfresh]
  · rw [hmoved, hnew]

end termfields
